import Mathlib

/-!
# Shallow embedding of the Ludo rules engine (`ludo_game.py`)

This file embeds the data model and the public operations of the Ludo core
(`Piece`, `Player`, `LudoGame` with `add_player`, `remove_player`, `roll_dice`,
`get_valid_moves`, `move_piece`, `get_game_state`, `reset_game`) as executable
Lean definitions, and proves or refutes the specification claims about them.

Modelling conventions:
* Python `dict` of players is an insertion-ordered association list
  `List (Color × Player)`; `del` is modelled by filtering the key out
  (dictionary keys are unique, so this agrees with deleting the entry).
* `random.randint(1, 6)` is modelled by passing the drawn value as an input
  of the `roll` operation; the reachability relation only allows draws in
  `{1, …, 6}` (a `Fin 6`, the value being `d.val + 1`).
* Event payloads carry the identifying data of the Python payload dicts
  (piece ids, positions, colors); string rendering is not modelled.
* Python mutates `Piece` objects in place through object identity; pieces are
  identified here by their index in the owning player's list (equivalently by
  `pieceId`, which equals the index in every state the engine constructs).
  The `piece != moving_piece` identity test inside the same-player occupancy
  scan is rendered as a `pieceId` comparison, and the identity test inside the
  capture scan is subsumed by the color test, since in every engine-built
  state a piece's own color equals its owner's color.
* Where the Python code would raise `KeyError` (looking up a player that was
  removed), the embedded operation returns failure and leaves the state
  unchanged; this path is unreachable without mid-game `remove_player`.
-/

/-- `PlayerColor` enum of the source. -/
inductive Color where
  | red
  | green
  | yellow
  | blue
deriving DecidableEq, Repr, Fintype

/-- `GameState` enum of the source (the game phase). -/
inductive Phase where
  | waitingForPlayers
  | rollingDice
  | movingPiece
  | gameOver
deriving DecidableEq, Repr

/-- `EventType` plus the payload data of `GameEvent`, as a tagged variant. -/
inductive Event where
  | gameStarted (players : List Color)
  | diceRolled (value : Nat)
  | pieceMoved (pieceId : Nat) (oldPosition newPosition : Int) (diceValue : Nat)
  | playerTurnChanged (color : Color)
  | gameOverEv (winner : Color)
  | invalidMove (pieceId : Nat) (diceValue : Nat)
  | pieceCaptured (captured capturer : Color × Nat)
  | pieceHome (pieceId : Nat) (color : Color)
deriving DecidableEq, Repr

/-- `Piece`: per-token record.  `position = -1` is the at-base sentinel. -/
structure Piece where
  playerColor : Color
  pieceId : Nat
  position : Int
  isHome : Bool
  isSafe : Bool
deriving DecidableEq, Repr

/-- `Piece.__init__`: fresh piece at the base sentinel. -/
def mkPiece (c : Color) (i : Nat) : Piece :=
  { playerColor := c, pieceId := i, position := -1, isHome := false, isSafe := false }

/-- `Piece.reset`: back to the base sentinel, flags cleared. -/
def resetPiece (q : Piece) : Piece :=
  { q with position := -1, isHome := false, isSafe := false }

/-- `Player._get_start_position`: board entry cell per color. -/
def startPosition : Color → Int
  | .red => 0
  | .green => 13
  | .yellow => 26
  | .blue => 39

/-- `Player._get_home_position`: first home-stretch cell per color. -/
def homePosition : Color → Int
  | .red => 50
  | .green => 63
  | .yellow => 76
  | .blue => 89

/-- `Player`: color, four pieces, count of finished pieces.  The two derived
constants `start_position` / `home_position` are pure functions of the color
(`startPosition`, `homePosition`) and are not duplicated in the record. -/
structure Player where
  color : Color
  pieces : List Piece
  homeCount : Nat
deriving DecidableEq, Repr

/-- `Player.__init__`: four fresh pieces, finished count `0`. -/
def newPlayer (c : Color) : Player :=
  { color := c, pieces := [mkPiece c 0, mkPiece c 1, mkPiece c 2, mkPiece c 3],
    homeCount := 0 }

/-- `Player.get_pieces_in_final_home`: the pieces with `is_home` set. -/
def piecesInFinalHome (p : Player) : List Piece :=
  p.pieces.filter (fun q => q.isHome)

/-- `Player.has_won`: all four pieces in final home. -/
def hasWon (p : Player) : Bool :=
  (piecesInFinalHome p).length == 4

/-- `LudoGame.home_stretch_positions`: the six reserved cells per color. -/
def homeStretchPositions (c : Color) : List Int :=
  [homePosition c, homePosition c + 1, homePosition c + 2,
   homePosition c + 3, homePosition c + 4, homePosition c + 5]

/-- `LudoGame.board_size`: length of the shared circular track. -/
def boardSize : Int := 52

/-- `LudoGame.safe_positions`: cells immune to capture. -/
def safePositions : List Int := [0, 8, 13, 21, 26, 34, 39, 47]

/-- `LudoGame` mutable fields: players (insertion-ordered), current player,
phase, last dice value. -/
structure GameState where
  players : List (Color × Player)
  currentPlayer : Option Color
  gameState : Phase
  diceValue : Nat
deriving DecidableEq, Repr

/-- `LudoGame.__init__`: the initial game. -/
def initGame : GameState :=
  { players := [], currentPlayer := none,
    gameState := .waitingForPlayers, diceValue := 0 }

/-- Dictionary lookup `self.players[color]`. -/
def lookupPlayer : List (Color × Player) → Color → Option Player
  | [], _ => none
  | (k, v) :: rest, c => if k = c then some v else lookupPlayer rest c

/-- In-place update of the value stored under an existing key
(`self.players[color]` aliasing in Python: the player object under `color`
is mutated in place). -/
def setPlayer : List (Color × Player) → Color → Player → List (Color × Player)
  | [], _, _ => []
  | (k, v) :: rest, c, p =>
    if k = c then (k, p) :: setPlayer rest c p else (k, v) :: setPlayer rest c p

/-- In-place update of the element at an index of a list. -/
def listModify : List α → Nat → (α → α) → List α
  | [], _, _ => []
  | a :: as, 0, f => f a :: as
  | a :: as, n + 1, f => a :: listModify as n f

/-- In-place update of piece `pid` of the player stored under key `c`
(mutation of a `Piece` object reached through the players dict). -/
def modifyPieceAt : List (Color × Player) → Color → Nat → (Piece → Piece) →
    List (Color × Player)
  | [], _, _, _ => []
  | (k, v) :: rest, c, pid, f =>
    if k = c then
      (k, { v with pieces := listModify v.pieces pid f }) :: modifyPieceAt rest c pid f
    else (k, v) :: modifyPieceAt rest c pid f

/-- `LudoGame._start_game`: with exactly four players, enter `RollingDice`,
red always starts, emit `GameStarted`. -/
def startGame (s : GameState) : GameState × List Event :=
  if s.players.length ≠ 4 then (s, [])
  else
    ({ s with gameState := .rollingDice, currentPlayer := some .red },
     [Event.gameStarted (s.players.map Prod.fst)])

/-- `LudoGame.add_player`: reject duplicates, auto-start at the fourth add. -/
def addPlayer (s : GameState) (c : Color) : Bool × GameState × List Event :=
  match lookupPlayer s.players c with
  | some _ => (false, s, [])
  | none =>
    let s1 := { s with players := s.players ++ [(c, newPlayer c)] }
    if s1.players.length = 4 then
      let (s2, evs) := startGame s1
      (true, s2, evs)
    else (true, s1, [])

/-- `LudoGame.remove_player`: delete the entry if present.  No phase check. -/
def removePlayer (s : GameState) (c : Color) : Bool × GameState :=
  match lookupPlayer s.players c with
  | none => (false, s)
  | some _ => (true, { s with players := s.players.filter (fun cp => cp.1 ≠ c) })

/-- `LudoGame.roll_dice`: outside `RollingDice` return the sentinel `0`;
otherwise store the drawn value `d` and enter `MovingPiece`.  The random draw
`random.randint(1, 6)` is the input `d`. -/
def rollDice (s : GameState) (d : Nat) : Nat × GameState × List Event :=
  if s.gameState ≠ Phase.rollingDice then (0, s, [])
  else
    (d, { s with diceValue := d, gameState := .movingPiece },
     [Event.diceRolled d])

/-- `LudoGame._should_enter_home_stretch`. -/
def shouldEnterHomeStretch (piece : Piece) (newPosition : Int) : Bool :=
  if newPosition < boardSize then false
  else
    -- piece that has not yet passed its own start cell keeps circling
    if piece.position < startPosition piece.playerColor ∧
        newPosition ≥ startPosition piece.playerColor then false
    else true

/-- `LudoGame._calculate_new_position`.  The Python code reads
`start_position` / `home_position` off the owning `Player`; both are pure
functions of the piece's color. -/
def calculateNewPosition (piece : Piece) (diceValue : Nat) : Int :=
  if piece.isHome then piece.position
  else if piece.position = -1 then
    if diceValue = 6 then startPosition piece.playerColor else -1
  else
    let newPos := piece.position + diceValue
    if shouldEnterHomeStretch piece newPos then
      homePosition piece.playerColor + (newPos - boardSize)
    else if newPos ≥ boardSize then newPos - boardSize
    else newPos

/-- `LudoGame._is_in_final_home`: position at or past the color's first
home-stretch cell and inside the six reserved cells. -/
def isInFinalHome (piece : Piece) : Bool :=
  if piece.position < homePosition piece.playerColor then false
  else homeStretchPositions piece.playerColor |>.contains piece.position

/-- `LudoGame._is_valid_move`: finished pieces never move; a base piece needs
a 6; otherwise the destination must not hold another non-finished piece of the
same player. -/
def isValidMove (player : Player) (piece : Piece) (newPosition : Int)
    (diceValue : Nat) : Bool :=
  if piece.isHome then false
  else if piece.position = -1 then diceValue == 6
  else
    !(player.pieces.any (fun other =>
        other.pieceId != piece.pieceId &&
        other.position == newPosition && !other.isHome))

/-- `LudoGame.get_valid_moves`: empty outside the mover's `MovingPiece`
window; otherwise the `(piece, destination)` pairs passing validation, in
piece order.  Pieces are reported by id. -/
def getValidMoves (s : GameState) (c : Color) : List (Nat × Int) :=
  if s.currentPlayer ≠ some c ∨ s.gameState ≠ Phase.movingPiece then []
  else
    match lookupPlayer s.players c with
    | none => []
    | some player =>
      player.pieces.filterMap (fun piece =>
        let newPosition := calculateNewPosition piece s.diceValue
        if isValidMove player piece newPosition s.diceValue then
          some (piece.pieceId, newPosition)
        else none)

/-- `LudoGame._check_capture`: on a safe cell nothing is captured; otherwise
scan players in insertion order and pieces in index order for the first
non-finished opposing piece on the destination cell, returning its key and
index. -/
def findCapture : List (Color × Player) → Color → Int → Option (Color × Nat)
  | [], _, _ => none
  | (c, p) :: rest, movingColor, position =>
    match p.pieces.findIdx? (fun q =>
        q.position == position && !q.isHome && q.playerColor != movingColor) with
    | some i => some (c, i)
    | none => findCapture rest movingColor position

/-- `LudoGame._check_capture` including the safe-cell short-circuit. -/
def checkCapture (ps : List (Color × Player)) (movingColor : Color)
    (position : Int) : Option (Color × Nat) :=
  if safePositions.contains position then none
  else findCapture ps movingColor position

/-- `has_won` read off the live state for a color. -/
def hasWonAt (s : GameState) (c : Color) : Bool :=
  match lookupPlayer s.players c with
  | some p => hasWon p
  | none => false

/-- `LudoGame._next_turn`: cyclic successor in the fixed order
red → green → yellow → blue, skipping absent or already-won players; if no
other eligible player exists the turn returns to the mover.  Phase returns to
`RollingDice`, `PlayerTurnChanged` is emitted. -/
def colorIndex : Color → Nat
  | .red => 0
  | .green => 1
  | .yellow => 2
  | .blue => 3

/-- Inverse of `colorIndex` modulo 4 (the `player_order` table). -/
def colorOfIndex (n : Nat) : Color :=
  match n % 4 with
  | 0 => .red
  | 1 => .green
  | 2 => .yellow
  | _ => .blue

/-- A color that may take the next turn: present and not yet won. -/
def eligibleNext (s : GameState) (c : Color) : Bool :=
  match lookupPlayer s.players c with
  | some p => !hasWon p
  | none => false

def nextTurn (s : GameState) : GameState × List Event :=
  match s.currentPlayer with
  | none => (s, [])
  | some cur =>
    let ci := colorIndex cur
    let cand1 := colorOfIndex (ci + 1)
    let cand2 := colorOfIndex (ci + 2)
    let cand3 := colorOfIndex (ci + 3)
    let nxt :=
      if eligibleNext s cand1 then cand1
      else if eligibleNext s cand2 then cand2
      else if eligibleNext s cand3 then cand3
      else cur
    ({ s with currentPlayer := some nxt, gameState := .rollingDice },
     [Event.playerTurnChanged nxt])

/-- `LudoGame._end_game`: phase becomes `GameOver`, `GameOver` is emitted. -/
def endGame (s : GameState) (winner : Color) : GameState × List Event :=
  ({ s with gameState := .gameOver }, [Event.gameOverEv winner])

/-! ## Named stages of the success path (definitional repackaging) -/

/-- The mover's player object after the position write and the finish
marking (stages 1–2 of `move_piece`'s success path). -/
def updatedMover (player : Player) (pid : Nat) (piece : Piece) (np : Int) :
    Player :=
  let reached := isInFinalHome { piece with position := np }
  let piece2 : Piece :=
    if reached then { piece with position := np, isHome := true }
    else { piece with position := np }
  let player1 := { player with pieces := listModify player.pieces pid (fun _ => piece2) }
  if reached then { player1 with homeCount := player1.homeCount + 1 } else player1

/-- Stage 4: refreshing the safe flag of the moved piece. -/
def safeFlag (np : Int) (q : Piece) : Piece :=
  { q with isSafe := safePositions.contains np }

/-- The players map after all mutation stages of the success path:
mover updated, at most one capture applied, safe flag refreshed. -/
def movedPlayers (s : GameState) (c : Color) (pid : Nat) (piece : Piece)
    (player : Player) : List (Color × Player) :=
  let np := calculateNewPosition piece s.diceValue
  let ps1 := setPlayer s.players c (updatedMover player pid piece np)
  let ps2 :=
    match checkCapture ps1 c np with
    | some (cc, ci) => modifyPieceAt ps1 cc ci resetPiece
    | none => ps1
  modifyPieceAt ps2 c pid (safeFlag np)

/-- The game state after the mutation stages, before the end-of-move
transition (game over or next turn). -/
def movedState (s : GameState) (c : Color) (pid : Nat) (piece : Piece)
    (player : Player) : GameState :=
  { s with players := movedPlayers s c pid piece player }

/-- The events of the success path, in emission order. -/
def successEvents (s : GameState) (c : Color) (pid : Nat) (piece : Piece)
    (player : Player) : List Event :=
  let np := calculateNewPosition piece s.diceValue
  let reached := isInFinalHome { piece with position := np }
  let ps1 := setPlayer s.players c (updatedMover player pid piece np)
  (if reached then [Event.pieceHome pid c] else []) ++
  (match checkCapture ps1 c np with
   | some (cc, ci) => [Event.pieceCaptured (cc, ci) (c, pid)]
   | none => []) ++
  [Event.pieceMoved pid piece.position np s.diceValue] ++
  (if hasWonAt (movedState s c pid piece player) c then [Event.gameOverEv c]
   else (nextTurn (movedState s c pid piece player)).2)

/-- The success path of `LudoGame.move_piece`, after all guards passed:
write the destination, mark a finishing piece (`PieceReachedHome`), resolve
at most one capture (`PieceCaptured`), refresh the safe flag, emit
`PieceMoved`, then either end the game (`GameOver`) or advance the turn
(`PlayerTurnChanged`).  `player` is the mover's player object, already
looked up by `move_piece`. -/
def executeMove (s : GameState) (c : Color) (pid : Nat) (piece : Piece)
    (player : Player) : GameState × List Event :=
  if hasWonAt (movedState s c pid piece player) c then
    ({ movedState s c pid piece player with gameState := .gameOver },
     successEvents s c pid piece player)
  else
    ((nextTurn (movedState s c pid piece player)).1,
     successEvents s c pid piece player)

/-- `LudoGame.move_piece`: turn/phase guard, then player lookup, then index
range guard, then validation (whose failure emits `InvalidMove`), then the
success path.  The index is an `Int` because the Python signature accepts any
integer and checks `piece_id < 0 or piece_id >= 4`. -/
def movePiece (s : GameState) (c : Color) (pieceId : Int) :
    Bool × GameState × List Event :=
  if s.currentPlayer ≠ some c ∨ s.gameState ≠ Phase.movingPiece then
    (false, s, [])
  else
    match lookupPlayer s.players c with
    | none => (false, s, [])  -- Python raises KeyError here (state unchanged)
    | some player =>
      if pieceId < 0 ∨ pieceId ≥ 4 then (false, s, [])
      else
        let pid := pieceId.toNat
        match player.pieces.get? pid with
        | none => (false, s, [])  -- unreachable: players always own 4 pieces
        | some piece =>
          let newPosition := calculateNewPosition piece s.diceValue
          if ¬ isValidMove player piece newPosition s.diceValue then
            (false, s, [Event.invalidMove pid s.diceValue])
          else
            let (s', evs) := executeMove s c pid piece player
            (true, s', evs)

/-- `LudoGame.reset_game`: reset every piece and finished count, clear the
turn fields, return to `WaitingForPlayers`; with four players present,
immediately restart. -/
def resetGame (s : GameState) : GameState × List Event :=
  let ps := s.players.map (fun cp =>
    (cp.1, { cp.2 with pieces := cp.2.pieces.map resetPiece, homeCount := 0 }))
  let s1 : GameState :=
    { players := ps, currentPlayer := none,
      gameState := .waitingForPlayers, diceValue := 0 }
  if s1.players.length = 4 then startGame s1 else (s1, [])

/-- Per-piece projection of `LudoGame.get_game_state`. -/
structure PieceSnap where
  pieceId : Nat
  position : Int
  isHome : Bool
  isSafe : Bool
deriving DecidableEq, Repr

/-- Per-player projection of `LudoGame.get_game_state`. -/
structure PlayerSnap where
  homeCount : Nat
  hasWonFlag : Bool
  pieces : List PieceSnap
deriving DecidableEq, Repr

/-- `LudoGame.get_game_state`: the read-only snapshot. -/
structure Snapshot where
  gameState : Phase
  currentPlayer : Option Color
  diceValue : Nat
  players : List (Color × PlayerSnap)
deriving DecidableEq, Repr

def pieceSnap (q : Piece) : PieceSnap :=
  { pieceId := q.pieceId, position := q.position,
    isHome := q.isHome, isSafe := q.isSafe }

def playerSnap (p : Player) : PlayerSnap :=
  { homeCount := p.homeCount, hasWonFlag := hasWon p,
    pieces := p.pieces.map pieceSnap }

def getGameState (s : GameState) : Snapshot :=
  { gameState := s.gameState, currentPlayer := s.currentPlayer,
    diceValue := s.diceValue,
    players := s.players.map (fun cp => (cp.1, playerSnap cp.2)) }

/-- The public mutating operations, as a reified alphabet.  A dice draw is a
`Fin 6` (value `d.val + 1`), mirroring `random.randint(1, 6)`. -/
inductive Op where
  | add (c : Color)
  | remove (c : Color)
  | roll (d : Fin 6)
  | move (c : Color) (i : Int)
  | reset
deriving DecidableEq, Repr

/-- Result value of an operation (`bool` for add/remove/move, the rolled
value for roll, nothing for reset). -/
inductive OpResult where
  | ok (b : Bool)
  | rolled (n : Nat)
  | unit
deriving DecidableEq, Repr

/-- One public operation: result, next state, emitted events. -/
def applyOp (s : GameState) : Op → OpResult × GameState × List Event
  | .add c =>
    let (b, s', evs) := addPlayer s c
    (.ok b, s', evs)
  | .remove c =>
    let (b, s') := removePlayer s c
    (.ok b, s', [])
  | .roll d =>
    let (n, s', evs) := rollDice s (d.val + 1)
    (.rolled n, s', evs)
  | .move c i =>
    let (b, s', evs) := movePiece s c i
    (.ok b, s', evs)
  | .reset =>
    let (s', evs) := resetGame s
    (.unit, s', evs)

/-- Run a sequence of public operations, discarding results and events. -/
def runOps (s : GameState) (ops : List Op) : GameState :=
  ops.foldl (fun t op => (applyOp t op).2.1) s

/-- Run a sequence of public operations, accumulating emitted events. -/
def runTrace (s : GameState) (ops : List Op) : GameState × List Event :=
  ops.foldl (fun t op =>
    let (_, s', evs) := applyOp t.1 op
    (s', t.2 ++ evs)) (s, [])

/-- A state reachable from the initial game by public operations. -/
def Reachable (s : GameState) : Prop :=
  ∃ ops : List Op, runOps initGame ops = s

/-! ## Claim-side definitions and concrete scenarios -/

/-- The terminal home cell of a color: the last of its six home-stretch
cells, i.e. the cell a piece would occupy after traversing the whole
home stretch. -/
def terminalHomeCell (c : Color) : Int := homePosition c + 5

/-- The legal-move rule as the specification words it: an entry is produced
for a piece iff the piece is not finished and either (a) it is at base, the
dice value is exactly 6 and the destination is the color's start cell, or
(b) it is in transit and its destination cell is not occupied by another
non-finished piece of the same color. -/
def specMoveEntry (dice : Nat) (player : Player) (piece : Piece) :
    Option (Nat × Int) :=
  if piece.isHome then none
  else if piece.position = -1 then
    if dice = 6 then some (piece.pieceId, startPosition piece.playerColor) else none
  else
    let dest := calculateNewPosition piece dice
    if player.pieces.any (fun other =>
        other.pieceId != piece.pieceId && other.position == dest && !other.isHome)
    then none
    else some (piece.pieceId, dest)

/-- Sum of the per-player finished counts. -/
def sumHomeCounts (s : GameState) : Nat :=
  (s.players.map (fun cp => cp.2.homeCount)).sum

/-- Adding the four players, in the fixed red, green, yellow, blue order. -/
def opsAddFour : List Op := [.add .red, .add .green, .add .yellow, .add .blue]

/-- The auto-started four-player game. -/
def gameAfterAdds : GameState := runOps initGame opsAddFour

/-- The start-of-game scenario: four players added, then a roll of 6. -/
def gameStartRoll6 : GameState := runOps initGame (opsAddFour ++ [.roll 5])

/-- A red piece on shared-track cell 49 (one step before red's home entry). -/
def redAt49 : Piece :=
  { playerColor := .red, pieceId := 0, position := 49,
    isHome := false, isSafe := false }

/-- A full play prefix: every round each player rolls and moves once (the
phase machine forces strict roll/move alternation).  After these operations
red's piece 0 stands on shared cell 49, it is red's turn, and the phase is
`RollingDice`.  Rolls are `Fin 6` values, so `.roll 5` is a die showing 6. -/
def opsC2 : List Op :=
  opsAddFour
  ++ [.roll 5, .move .red 0, .roll 5, .move .green 0,
      .roll 5, .move .yellow 0, .roll 5, .move .blue 0]
  ++ [.roll 4, .move .red 0, .roll 4, .move .green 0,
      .roll 4, .move .yellow 0, .roll 4, .move .blue 0]
  ++ [.roll 4, .move .red 0, .roll 4, .move .green 0,
      .roll 4, .move .yellow 0, .roll 4, .move .blue 0]
  ++ [.roll 4, .move .red 0, .roll 4, .move .green 0,
      .roll 4, .move .yellow 0, .roll 4, .move .blue 0]
  ++ [.roll 4, .move .red 0, .roll 4, .move .green 0,
      .roll 4, .move .yellow 0, .roll 5, .move .blue 1]
  ++ [.roll 4, .move .red 0, .roll 4, .move .green 0,
      .roll 4, .move .yellow 0, .roll 4, .move .blue 1]
  ++ [.roll 4, .move .red 0, .roll 4, .move .green 0,
      .roll 4, .move .yellow 0, .roll 4, .move .blue 1]
  ++ [.roll 4, .move .red 0, .roll 4, .move .green 0,
      .roll 5, .move .yellow 1, .roll 4, .move .blue 1]
  ++ [.roll 4, .move .red 0, .roll 4, .move .green 0,
      .roll 4, .move .yellow 1, .roll 5, .move .blue 2]
  ++ [.roll 4, .move .red 0, .roll 5, .move .green 1,
      .roll 4, .move .yellow 1, .roll 4, .move .blue 2]
  ++ [.roll 3, .move .red 0, .roll 4, .move .green 1,
      .roll 4, .move .yellow 1, .roll 1, .move .blue 2]

/-- The state just before the C2 counterexample move: red piece 0 at cell 49
and a rolled 1, so its destination is cell 50 (red's first home-stretch
cell, not the terminal cell 55). -/
def sC2pre : GameState := runOps initGame (opsC2 ++ [.roll 0])

/-- Recognizer for `GameOver` events. -/
def isGameOverEv : Event → Bool
  | .gameOverEv _ => true
  | _ => false

/-- Number of `GameOver` events in a trace. -/
def countGameOver (evs : List Event) : Nat := evs.countP isGameOverEv

/-- The operations of a single run of a game: adding players, rolling and
moving.  `reset` starts a new game, and removing a player after the game has
started is outside the public contract (the spec leaves it undefined), so
neither belongs to a run. -/
def isRunOp : Op → Bool
  | .remove _ => false
  | .reset => false
  | _ => true

/-- Red's piece 0 as it stands in `sC2pre`: on shared cell 49. -/
def redPiece49 : Piece :=
  { playerColor := .red, pieceId := 0, position := 49,
    isHome := false, isSafe := false }

/-- Red's piece 0 after the C2 move: on cell 50 and marked finished. -/
def redPiece50 : Piece :=
  { playerColor := .red, pieceId := 0, position := 50,
    isHome := true, isSafe := false }

/-- Red's player object in `sC2pre`. -/
def redPlayerPre : Player :=
  { color := .red,
    pieces := [redPiece49, mkPiece .red 1, mkPiece .red 2, mkPiece .red 3],
    homeCount := 0 }

/-- Red's player object after the C2 move: one finished piece. -/
def redPlayerPost : Player :=
  { color := .red,
    pieces := [redPiece50, mkPiece .red 1, mkPiece .red 2, mkPiece .red 3],
    homeCount := 1 }

/-- The state after the C2 counterexample move. -/
def sC2post : GameState := (movePiece sC2pre .red 0).2.1

/-- The events of the C2 counterexample move. -/
def evsC2 : List Event := (movePiece sC2pre .red 0).2.2

/-! ## The structural well-formedness invariant -/

/-- Per-piece invariant: correct owner color and index, a position that is the
base sentinel, a shared-track cell, or a cell of the owner's home stretch; a
finished piece sits in the home stretch, and any position past the shared
track belongs to a finished piece. -/
def pieceWF (c : Color) (i : Nat) (q : Piece) : Prop :=
  q.playerColor = c ∧ q.pieceId = i ∧
  (q.position = -1 ∨ (0 ≤ q.position ∧ q.position < 52) ∨
    (homePosition c ≤ q.position ∧ q.position ≤ homePosition c + 5)) ∧
  (q.isHome = true → homePosition c ≤ q.position ∧ q.position ≤ homePosition c + 5) ∧
  (52 ≤ q.position → q.isHome = true)

/-- Per-player invariant: correct color, exactly four pieces indexed `0`–`3`,
and a finished count equal to the number of finished pieces. -/
def playerWF (c : Color) (p : Player) : Prop :=
  p.color = c ∧ p.pieces.length = 4 ∧
  (∀ i q, p.pieces.get? i = some q → pieceWF c i q) ∧
  p.homeCount = p.pieces.countP (fun q => q.isHome)

/-- Game invariant: every stored player is well formed under its key, keys
are distinct, and the stored dice value is at most six. -/
def gameWF (s : GameState) : Prop :=
  (∀ cp ∈ s.players, playerWF cp.1 cp.2) ∧
  (s.players.map Prod.fst).Nodup ∧
  s.diceValue ≤ 6

/-! ## Basic facts about the list helpers -/

theorem listModify_length (l : List α) (n : Nat) (f : α → α) :
    (listModify l n f).length = l.length := by
  induction l generalizing n with
  | nil => rfl
  | cons a as ih =>
    cases n with
    | zero => rfl
    | succ m => simp [listModify, ih]

theorem listModify_get? (l : List α) (n : Nat) (f : α → α) (i : Nat) :
    (listModify l n f).get? i =
      if i = n then (l.get? n).map f else l.get? i := by
  induction l generalizing n i with
  | nil => cases n <;> cases i <;> simp [listModify]
  | cons a as ih =>
    cases n with
    | zero => cases i <;> simp [listModify]
    | succ m =>
      cases i with
      | zero => simp [listModify]
      | succ j => simpa [listModify] using ih m j

theorem listModify_countP (l : List α) (n : Nat) (f : α → α) (p : α → Bool)
    (a : α) (hget : l.get? n = some a) :
    (listModify l n f).countP p + (if p a then 1 else 0) =
      l.countP p + (if p (f a) then 1 else 0) := by
  induction l generalizing n with
  | nil => simp at hget
  | cons b bs ih =>
    cases n with
    | zero =>
      simp only [List.get?] at hget
      cases hget
      simp only [listModify, List.countP_cons]
      by_cases h1 : p a <;> by_cases h2 : p (f a) <;> simp [h1, h2]
    | succ m =>
      simp only [List.get?] at hget
      simp only [listModify, List.countP_cons]
      have := ih m hget
      by_cases h1 : p b <;> simp [h1] <;> omega

theorem listModify_countP_of_inv (l : List α) (n : Nat) (f : α → α)
    (p : α → Bool) (hf : ∀ a, p (f a) = p a) :
    (listModify l n f).countP p = l.countP p := by
  induction l generalizing n with
  | nil => rfl
  | cons b bs ih =>
    cases n with
    | zero => simp [listModify, List.countP_cons, hf]
    | succ m => simp [listModify, List.countP_cons, ih]

theorem lookupPlayer_eq_none_iff (ps : List (Color × Player)) (c : Color) :
    lookupPlayer ps c = none ↔ c ∉ ps.map Prod.fst := by
  induction ps with
  | nil => simp [lookupPlayer]
  | cons kv rest ih =>
    obtain ⟨k, v⟩ := kv
    by_cases h : k = c
    · subst h
      simp [lookupPlayer]
    · simp [lookupPlayer, h, ih, Ne.symm h]

theorem lookupPlayer_isSome_of_mem (ps : List (Color × Player)) (c : Color)
    (h : c ∈ ps.map Prod.fst) : ∃ p, lookupPlayer ps c = some p := by
  cases hl : lookupPlayer ps c with
  | none => exact absurd ((lookupPlayer_eq_none_iff ps c).mp hl) (by simp [h])
  | some p => exact ⟨p, rfl⟩

theorem lookupPlayer_mem (ps : List (Color × Player)) (c : Color) (p : Player)
    (h : lookupPlayer ps c = some p) : (c, p) ∈ ps := by
  induction ps with
  | nil => simp [lookupPlayer] at h
  | cons kv rest ih =>
    obtain ⟨k, v⟩ := kv
    by_cases hk : k = c
    · subst hk
      simp [lookupPlayer] at h
      simp [h]
    · simp [lookupPlayer, hk] at h
      simp [ih h]

theorem lookupPlayer_of_mem_nodup (ps : List (Color × Player)) (c : Color)
    (p : Player) (hnd : (ps.map Prod.fst).Nodup) (hmem : (c, p) ∈ ps) :
    lookupPlayer ps c = some p := by
  induction ps with
  | nil => simp at hmem
  | cons kv rest ih =>
    obtain ⟨k, v⟩ := kv
    simp only [List.map_cons, List.nodup_cons] at hnd
    rcases List.mem_cons.mp hmem with h | h
    · cases h
      simp [lookupPlayer]
    · have hk : k ≠ c := by
        intro hkc
        subst hkc
        exact hnd.1 (List.mem_map.mpr ⟨(k, p), h, rfl⟩)
      simp [lookupPlayer, hk, ih hnd.2 h]

theorem lookupPlayer_setPlayer_self (ps : List (Color × Player)) (c : Color)
    (p : Player) :
    lookupPlayer (setPlayer ps c p) c = (lookupPlayer ps c).map (fun _ => p) := by
  induction ps with
  | nil => rfl
  | cons kv rest ih =>
    obtain ⟨k, v⟩ := kv
    by_cases h : k = c
    · subst h
      simp [setPlayer, lookupPlayer]
    · simp [setPlayer, lookupPlayer, h, ih]

theorem lookupPlayer_setPlayer_other (ps : List (Color × Player)) (c c' : Color)
    (p : Player) (h : c' ≠ c) :
    lookupPlayer (setPlayer ps c p) c' = lookupPlayer ps c' := by
  induction ps with
  | nil => rfl
  | cons kv rest ih =>
    obtain ⟨k, v⟩ := kv
    by_cases hk : k = c
    · subst hk
      simp [setPlayer, lookupPlayer, Ne.symm h, ih]
    · by_cases hk' : k = c'
      · subst hk'
        simp [setPlayer, lookupPlayer, hk]
      · simp [setPlayer, lookupPlayer, hk, hk', ih]

theorem setPlayer_map_fst (ps : List (Color × Player)) (c : Color) (p : Player) :
    (setPlayer ps c p).map Prod.fst = ps.map Prod.fst := by
  induction ps with
  | nil => rfl
  | cons kv rest ih =>
    obtain ⟨k, v⟩ := kv
    by_cases h : k = c <;> simp [setPlayer, h, ih]

theorem lookupPlayer_modifyPieceAt_self (ps : List (Color × Player)) (c : Color)
    (pid : Nat) (f : Piece → Piece) :
    lookupPlayer (modifyPieceAt ps c pid f) c =
      (lookupPlayer ps c).map
        (fun p => { p with pieces := listModify p.pieces pid f }) := by
  induction ps with
  | nil => rfl
  | cons kv rest ih =>
    obtain ⟨k, v⟩ := kv
    by_cases h : k = c
    · subst h
      simp [modifyPieceAt, lookupPlayer]
    · simp [modifyPieceAt, lookupPlayer, h, ih]

theorem lookupPlayer_modifyPieceAt_other (ps : List (Color × Player))
    (c c' : Color) (pid : Nat) (f : Piece → Piece) (h : c' ≠ c) :
    lookupPlayer (modifyPieceAt ps c pid f) c' = lookupPlayer ps c' := by
  induction ps with
  | nil => rfl
  | cons kv rest ih =>
    obtain ⟨k, v⟩ := kv
    by_cases hk : k = c
    · subst hk
      simp [modifyPieceAt, lookupPlayer, Ne.symm h, ih]
    · by_cases hk' : k = c'
      · subst hk'
        simp [modifyPieceAt, lookupPlayer, hk]
      · simp [modifyPieceAt, lookupPlayer, hk, hk', ih]

theorem modifyPieceAt_map_fst (ps : List (Color × Player)) (c : Color)
    (pid : Nat) (f : Piece → Piece) :
    (modifyPieceAt ps c pid f).map Prod.fst = ps.map Prod.fst := by
  induction ps with
  | nil => rfl
  | cons kv rest ih =>
    obtain ⟨k, v⟩ := kv
    by_cases h : k = c <;> simp [modifyPieceAt, h, ih]

theorem findIdx?_some_spec (l : List α) (p : α → Bool) (i : Nat)
    (h : l.findIdx? p = some i) : ∃ a, l.get? i = some a ∧ p a = true := by
  induction l generalizing i with
  | nil => simp [List.findIdx?] at h
  | cons b bs ih =>
    rw [List.findIdx?_cons] at h
    by_cases hb : p b
    · simp [hb] at h
      subst h
      exact ⟨b, rfl, hb⟩
    · simp only [hb, if_false, Bool.false_eq_true, if_neg] at h
      rw [List.findIdx?_succ] at h
      cases hmap : bs.findIdx? p with
      | none => simp [hmap] at h
      | some j =>
        simp [hmap] at h
        obtain ⟨a, ha, hpa⟩ := ih j hmap
        exact ⟨a, by simpa [← h] using ha, hpa⟩

theorem findCapture_spec (ps : List (Color × Player)) (mc : Color) (pos : Int)
    (cc : Color) (ci : Nat) (hnd : (ps.map Prod.fst).Nodup)
    (h : findCapture ps mc pos = some (cc, ci)) :
    ∃ p q, lookupPlayer ps cc = some p ∧ p.pieces.get? ci = some q ∧
      q.position = pos ∧ q.isHome = false ∧ q.playerColor ≠ mc := by
  induction ps with
  | nil => simp [findCapture] at h
  | cons kv rest ih =>
    obtain ⟨k, v⟩ := kv
    simp only [List.map_cons, List.nodup_cons] at hnd
    simp only [findCapture] at h
    cases hidx : v.pieces.findIdx? (fun q =>
        q.position == pos && !q.isHome && q.playerColor != mc) with
    | some i =>
      rw [hidx] at h
      injection h with h
      injection h with h1 h2
      subst h1; subst h2
      obtain ⟨q, hq, hpq⟩ := findIdx?_some_spec _ _ _ hidx
      simp only [Bool.and_eq_true, beq_iff_eq, Bool.not_eq_true',
        bne_iff_ne, ne_eq] at hpq
      exact ⟨v, q, by simp [lookupPlayer], hq, hpq.1.1, hpq.1.2, hpq.2⟩
    | none =>
      rw [hidx] at h
      obtain ⟨p, q, hlk, rest'⟩ := ih hnd.2 h
      have hk : k ≠ cc := by
        intro hkc
        subst hkc
        exact hnd.1 (List.mem_map.mpr ⟨(k, p), lookupPlayer_mem _ _ _ hlk, rfl⟩)
      exact ⟨p, q, by simp [lookupPlayer, hk, hlk], rest'⟩

/-! ## Geometry facts -/

theorem mem_homeStretchPositions (c : Color) (x : Int) :
    x ∈ homeStretchPositions c ↔ homePosition c ≤ x ∧ x ≤ homePosition c + 5 := by
  simp only [homeStretchPositions, List.mem_cons, List.mem_singleton,
    List.not_mem_nil, or_false]
  omega

theorem isInFinalHome_iff (q : Piece) :
    isInFinalHome q = true ↔ q.position ∈ homeStretchPositions q.playerColor := by
  unfold isInFinalHome
  by_cases h : q.position < homePosition q.playerColor
  · simp only [h, if_pos]
    constructor
    · intro hf
      exact absurd hf (by simp)
    · intro hmem
      have := (mem_homeStretchPositions _ _).mp hmem
      omega
  · simp only [h, if_neg, if_false]
    simp [List.elem_iff]

theorem isInFinalHome_update (q : Piece) (x : Int) :
    isInFinalHome { q with position := x } = true ↔
      homePosition q.playerColor ≤ x ∧ x ≤ homePosition q.playerColor + 5 := by
  rw [isInFinalHome_iff]
  exact mem_homeStretchPositions _ _

theorem startPosition_range (c : Color) :
    0 ≤ startPosition c ∧ startPosition c < 52 := by
  cases c <;> simp [startPosition]

theorem homePosition_range (c : Color) :
    50 ≤ homePosition c ∧ homePosition c ≤ 89 := by
  cases c <;> simp [homePosition]

/-- Invariant of a single run of a game (operations drawn from add/roll/move
only): the structural invariant holds; once the game has left
`WaitingForPlayers` there are four players; while waiting no piece is
finished; and in the two active phases the current player is present and has
not won. -/
def RunInv (s : GameState) : Prop :=
  gameWF s ∧
  (s.gameState ≠ Phase.waitingForPlayers → s.players.length = 4) ∧
  (s.gameState = Phase.waitingForPlayers →
    ∀ cp ∈ s.players, ∀ q ∈ cp.2.pieces, q.isHome = false) ∧
  ((s.gameState = Phase.rollingDice ∨ s.gameState = Phase.movingPiece) →
    ∃ cur p, s.currentPlayer = some cur ∧
      lookupPlayer s.players cur = some p ∧ hasWon p = false)

theorem playerWF_newPlayer (c : Color) : playerWF c (newPlayer c) := by
  refine ⟨rfl, rfl, ?_, rfl⟩
  intro i q hq
  match i, hq with
  | 0, hq => cases hq; exact ⟨rfl, rfl, by simp [mkPiece], by simp [mkPiece], by simp [mkPiece]⟩
  | 1, hq => cases hq; exact ⟨rfl, rfl, by simp [mkPiece], by simp [mkPiece], by simp [mkPiece]⟩
  | 2, hq => cases hq; exact ⟨rfl, rfl, by simp [mkPiece], by simp [mkPiece], by simp [mkPiece]⟩
  | 3, hq => cases hq; exact ⟨rfl, rfl, by simp [mkPiece], by simp [mkPiece], by simp [mkPiece]⟩

theorem gameWF_initGame : gameWF initGame := by
  refine ⟨?_, ?_, ?_⟩ <;> simp [initGame]

theorem mem_setPlayer (ps : List (Color × Player)) (c : Color) (p : Player)
    (cp' : Color × Player) (h : cp' ∈ setPlayer ps c p) :
    ∃ cp ∈ ps, (cp.1 = c ∧ cp' = (cp.1, p)) ∨ (cp.1 ≠ c ∧ cp' = cp) := by
  induction ps with
  | nil => simp [setPlayer] at h
  | cons kv rest ih =>
    obtain ⟨k, v⟩ := kv
    simp only [setPlayer] at h
    split at h
    case isTrue hk =>
      rcases List.mem_cons.mp h with h | h
      · exact ⟨(k, v), List.mem_cons_self _ _, Or.inl ⟨hk, h⟩⟩
      · obtain ⟨cp, hcp, hor⟩ := ih h
        exact ⟨cp, List.mem_cons_of_mem _ hcp, hor⟩
    case isFalse hk =>
      rcases List.mem_cons.mp h with h | h
      · exact ⟨(k, v), List.mem_cons_self _ _, Or.inr ⟨hk, h⟩⟩
      · obtain ⟨cp, hcp, hor⟩ := ih h
        exact ⟨cp, List.mem_cons_of_mem _ hcp, hor⟩

theorem mem_modifyPieceAt (ps : List (Color × Player)) (c : Color) (pid : Nat)
    (f : Piece → Piece) (cp' : Color × Player) (h : cp' ∈ modifyPieceAt ps c pid f) :
    ∃ cp ∈ ps,
      (cp.1 = c ∧ cp' = (cp.1, { cp.2 with pieces := listModify cp.2.pieces pid f })) ∨
      (cp.1 ≠ c ∧ cp' = cp) := by
  induction ps with
  | nil => simp [modifyPieceAt] at h
  | cons kv rest ih =>
    obtain ⟨k, v⟩ := kv
    simp only [modifyPieceAt] at h
    split at h
    case isTrue hk =>
      rcases List.mem_cons.mp h with h | h
      · exact ⟨(k, v), List.mem_cons_self _ _, Or.inl ⟨hk, h⟩⟩
      · obtain ⟨cp, hcp, hor⟩ := ih h
        exact ⟨cp, List.mem_cons_of_mem _ hcp, hor⟩
    case isFalse hk =>
      rcases List.mem_cons.mp h with h | h
      · exact ⟨(k, v), List.mem_cons_self _ _, Or.inr ⟨hk, h⟩⟩
      · obtain ⟨cp, hcp, hor⟩ := ih h
        exact ⟨cp, List.mem_cons_of_mem _ hcp, hor⟩

theorem shouldEnter_ge (q : Piece) (np : Int)
    (h : shouldEnterHomeStretch q np = true) : 52 ≤ np := by
  unfold shouldEnterHomeStretch at h
  by_cases h1 : np < boardSize
  · simp [h1] at h
  · simp only [boardSize] at h1
    omega

/-- Range of the computed destination for a movable piece: either a shared
track cell, or a home-stretch cell, in which case the moved piece is detected
as finished. -/
theorem calculateNewPosition_range (c : Color) (i : Nat) (q : Piece) (d : Nat)
    (hWF : pieceWF c i q) (hnh : q.isHome = false) (hd : d ≤ 6)
    (hbase : q.position = -1 → d = 6) :
    ((0 ≤ calculateNewPosition q d ∧ calculateNewPosition q d < 52) ∨
      (homePosition c ≤ calculateNewPosition q d ∧
        calculateNewPosition q d ≤ homePosition c + 5)) ∧
    (52 ≤ calculateNewPosition q d →
      isInFinalHome { q with position := calculateNewPosition q d } = true) := by
  obtain ⟨hcol, -, hpos, -, hhi⟩ := hWF
  have hhome := homePosition_range c
  by_cases hm1 : q.position = -1
  · have hd6 : d = 6 := hbase hm1
    have : calculateNewPosition q d = startPosition c := by
      unfold calculateNewPosition
      simp [hnh, hm1, hd6, hcol]
    rw [this]
    have := startPosition_range c
    constructor
    · exact Or.inl this
    · intro h52
      omega
  · have htrack : 0 ≤ q.position ∧ q.position < 52 := by
      rcases hpos with h | h | h
      · exact absurd h hm1
      · exact h
      · refine ⟨by omega, ?_⟩
        by_contra hge
        have := hhi (by omega)
        simp [this] at hnh
    have hcalc : calculateNewPosition q d =
        if shouldEnterHomeStretch q (q.position + d) then
          homePosition c + (q.position + d - boardSize)
        else if q.position + d ≥ boardSize then q.position + d - boardSize
        else q.position + d := by
      unfold calculateNewPosition
      simp [hnh, hm1, hcol]
    rw [hcalc]
    by_cases hse : shouldEnterHomeStretch q (q.position + d) = true
    · have h52 := shouldEnter_ge q _ hse
      rw [if_pos hse]
      simp only [boardSize]
      refine ⟨Or.inr ⟨by omega, by omega⟩, fun _ => ?_⟩
      rw [isInFinalHome_update, hcol]
      omega
    · rw [if_neg hse]
      by_cases hwrap : q.position + d ≥ boardSize
      · rw [if_pos hwrap]
        simp only [boardSize] at hwrap ⊢
        exact ⟨Or.inl ⟨by omega, by omega⟩, fun hx => absurd hx (by omega)⟩
      · rw [if_neg hwrap]
        simp only [boardSize] at hwrap ⊢
        exact ⟨Or.inl ⟨by omega, by omega⟩, fun hx => absurd hx (by omega)⟩

/-! ## Removal -/

theorem lookupPlayer_filterOut_self (ps : List (Color × Player)) (c : Color) :
    lookupPlayer (ps.filter (fun cp => cp.1 ≠ c)) c = none := by
  induction ps with
  | nil => rfl
  | cons kv rest ih =>
    obtain ⟨k, v⟩ := kv
    simp only [ne_eq, decide_not] at ih ⊢
    by_cases hk : k = c
    · simpa [List.filter, hk] using ih
    · simpa [List.filter, hk, lookupPlayer] using ih

theorem lookupPlayer_filterOut_other (ps : List (Color × Player)) (c c' : Color)
    (h : c' ≠ c) :
    lookupPlayer (ps.filter (fun cp => cp.1 ≠ c)) c' = lookupPlayer ps c' := by
  induction ps with
  | nil => rfl
  | cons kv rest ih =>
    obtain ⟨k, v⟩ := kv
    simp only [ne_eq, decide_not] at ih ⊢
    by_cases hk : k = c
    · subst hk
      simpa [List.filter, lookupPlayer, Ne.symm h] using ih
    · by_cases hk' : k = c'
      · subst hk'
        simp [List.filter, lookupPlayer, hk]
      · simpa [List.filter, lookupPlayer, hk, hk'] using ih

/-- C10: in every game state — including started (`RollingDice`/`MovingPiece`)
and ended (`GameOver`) ones — `remove_player(color)` succeeds exactly when the
color is present, deletes that player and no other, and never changes the
phase, the current player, or the dice value (there is no phase
re-validation: the theorem quantifies over every phase). -/
theorem removePlayer_spec (s : GameState) (c : Color) :
    ((removePlayer s c).1 = true ↔ (lookupPlayer s.players c).isSome = true) ∧
    (removePlayer s c).2.gameState = s.gameState ∧
    (removePlayer s c).2.currentPlayer = s.currentPlayer ∧
    (removePlayer s c).2.diceValue = s.diceValue ∧
    lookupPlayer (removePlayer s c).2.players c = none ∧
    (∀ c', c' ≠ c →
      lookupPlayer (removePlayer s c).2.players c' = lookupPlayer s.players c') := by
  unfold removePlayer
  cases h : lookupPlayer s.players c with
  | none =>
    refine ⟨by simp [h], rfl, rfl, rfl, h, fun c' _ => rfl⟩
  | some p =>
    refine ⟨by simp, rfl, rfl, rfl, ?_, ?_⟩
    · exact lookupPlayer_filterOut_self s.players c
    · intro c' hc'
      exact lookupPlayer_filterOut_other s.players c c' hc'

/-- C10 witness: removing green from the started four-player game. -/
theorem removePlayer_spec_witness :
    ((removePlayer gameAfterAdds .green).1 = true ↔
      (lookupPlayer gameAfterAdds.players .green).isSome = true) ∧
    (removePlayer gameAfterAdds .green).2.gameState = gameAfterAdds.gameState ∧
    (removePlayer gameAfterAdds .green).2.currentPlayer = gameAfterAdds.currentPlayer ∧
    (removePlayer gameAfterAdds .green).2.diceValue = gameAfterAdds.diceValue ∧
    lookupPlayer (removePlayer gameAfterAdds .green).2.players .green = none ∧
    (∀ c', c' ≠ .green →
      lookupPlayer (removePlayer gameAfterAdds .green).2.players c' =
        lookupPlayer gameAfterAdds.players c') :=
  removePlayer_spec gameAfterAdds .green

/-! ## C1: the failure path of `move_piece` -/

/-- C1 counterexample: two failed move attempts that the claim says must emit
`InvalidMove`, but that emit nothing.  In the started four-player game the
phase is `RollingDice`, so `move(red, 0)` is a wrong-phase failure — it
returns failure with an empty event list; after rolling, `move(red, 10)` is
an out-of-range failure — again failure with no event.  Only
destination-validation failures emit `InvalidMove`. -/
theorem movePiece_silent_failure_counterexample :
    movePiece gameAfterAdds .red 0 = (false, gameAfterAdds, []) ∧
    movePiece gameStartRoll6 .red 10 = (false, gameStartRoll6, []) ∧
    movePiece gameStartRoll6 .green 0 = (false, gameStartRoll6, []) := by
  refine ⟨by decide, by decide, by decide⟩

/-- C1 amended: every failed `move(color, piece_index)` returns failure and
leaves the state unchanged; it emits a single `InvalidMove` event exactly
when the turn, phase and index guards all passed and the destination failed
validation, and emits nothing at all on wrong-turn, wrong-phase or
out-of-range failures. -/
theorem movePiece_failure_frame (s : GameState) (c : Color) (i : Int)
    (hfail : (movePiece s c i).1 = false) :
    (movePiece s c i).2.1 = s ∧
    ((movePiece s c i).2.2 = [] ∨
      (movePiece s c i).2.2 = [Event.invalidMove i.toNat s.diceValue]) ∧
    ((s.currentPlayer ≠ some c ∨ s.gameState ≠ Phase.movingPiece ∨ i < 0 ∨ i ≥ 4) →
      (movePiece s c i).2.2 = []) ∧
    (∀ player piece, s.currentPlayer = some c → s.gameState = Phase.movingPiece →
      lookupPlayer s.players c = some player → ¬(i < 0 ∨ i ≥ 4) →
      player.pieces.get? i.toNat = some piece →
      (movePiece s c i).2.2 = [Event.invalidMove i.toNat s.diceValue]) := by
  by_cases h1 : s.currentPlayer ≠ some c ∨ s.gameState ≠ Phase.movingPiece
  · have hE : movePiece s c i = (false, s, []) := by
      unfold movePiece
      rw [if_pos h1]
    rw [hE]
    refine ⟨rfl, Or.inl rfl, fun _ => rfl, ?_⟩
    intro player piece hcur hphase _ _ _
    rcases h1 with h | h
    · exact absurd hcur h
    · exact absurd hphase h
  · have h1' : s.currentPlayer = some c ∧ s.gameState = Phase.movingPiece := by
      push_neg at h1
      exact h1
    cases hlk : lookupPlayer s.players c with
    | none =>
      have hE : movePiece s c i = (false, s, []) := by
        unfold movePiece
        rw [if_neg h1]
        simp only [hlk]
      rw [hE]
      refine ⟨rfl, Or.inl rfl, fun _ => rfl, ?_⟩
      intro player piece _ _ hsome _ _
      cases hsome
    | some player =>
      by_cases h2 : i < 0 ∨ i ≥ 4
      · have hE : movePiece s c i = (false, s, []) := by
          unfold movePiece
          rw [if_neg h1]
          simp only [hlk]
          rw [if_pos h2]
        rw [hE]
        refine ⟨rfl, Or.inl rfl, fun _ => rfl, ?_⟩
        intro _ _ _ _ _ hnr _
        exact absurd h2 hnr
      · cases hq : player.pieces.get? i.toNat with
        | none =>
          have hE : movePiece s c i = (false, s, []) := by
            unfold movePiece
            rw [if_neg h1]
            simp only [hlk]
            rw [if_neg h2]
            simp only [hq]
          rw [hE]
          refine ⟨rfl, Or.inl rfl, fun _ => rfl, ?_⟩
          intro player' piece' _ _ hsome _ hget
          cases hsome
          rw [hq] at hget
          cases hget
        | some piece =>
          by_cases h3 : isValidMove player piece
              (calculateNewPosition piece s.diceValue) s.diceValue = true
          · exfalso
            have hE : (movePiece s c i).1 = true := by
              unfold movePiece
              rw [if_neg h1]
              simp only [hlk]
              rw [if_neg h2]
              simp only [hq]
              rw [if_neg (not_not_intro h3)]
            rw [hE] at hfail
            cases hfail
          · have hE : movePiece s c i =
                (false, s, [Event.invalidMove i.toNat s.diceValue]) := by
              unfold movePiece
              rw [if_neg h1]
              simp only [hlk]
              rw [if_neg h2]
              simp only [hq]
              rw [if_pos h3]
            rw [hE]
            refine ⟨rfl, Or.inr rfl, ?_, fun _ _ _ _ _ _ _ => rfl⟩
            intro hbad
            rcases hbad with h | h | h | h
            · exact absurd h1'.1 h
            · exact absurd h1'.2 h
            · exact absurd (Or.inl h) h2
            · exact absurd (Or.inr h) h2

/-- C1 amended witness: a validation failure (moving a base piece on a die of
1) emits exactly one `InvalidMove`; the state is unchanged. -/
theorem movePiece_failure_frame_witness :
    ((movePiece (runOps initGame (opsAddFour ++ [.roll 0])) .red 0).1 = false) ∧
    ((movePiece (runOps initGame (opsAddFour ++ [.roll 0])) .red 0).2.1 =
        runOps initGame (opsAddFour ++ [.roll 0]) ∧
      (((movePiece (runOps initGame (opsAddFour ++ [.roll 0])) .red 0).2.2 = []) ∨
        ((movePiece (runOps initGame (opsAddFour ++ [.roll 0])) .red 0).2.2 =
          [Event.invalidMove (0 : Int).toNat
            (runOps initGame (opsAddFour ++ [.roll 0])).diceValue]))) :=
  ⟨by decide,
   (movePiece_failure_frame (runOps initGame (opsAddFour ++ [.roll 0])) .red 0
      (by decide)).1,
   (movePiece_failure_frame (runOps initGame (opsAddFour ++ [.roll 0])) .red 0
      (by decide)).2.1⟩

/-! ## C3: legal moves in the start-of-game scenario -/

/-- C3 counterexample: in the start scenario (four players auto-started,
current player red, then a roll of 6) `legal_moves(red)` does not contain
exactly one entry — all four base pieces are offered, each with destination
red's start cell 0. -/
theorem startScenario_moves_counterexample :
    gameAfterAdds.gameState = Phase.rollingDice ∧
    gameAfterAdds.currentPlayer = some .red ∧
    gameStartRoll6 = (rollDice gameAfterAdds 6).2.1 ∧
    (getValidMoves gameStartRoll6 .red).length = 4 ∧
    getValidMoves gameStartRoll6 .red ≠ [(0, 0)] := by
  refine ⟨by decide, by decide, by decide, by decide, by decide⟩

/-- C3 amended: in the start-of-game scenario `legal_moves` for the current
player contains exactly four entries, one per piece index 0–3, each with
destination equal to red's start cell 0 (a base piece may leave only on a 6,
and all four pieces are at base, so all four are offered). -/
theorem startScenario_moves_amended :
    getValidMoves gameStartRoll6 .red =
      [(0, startPosition .red), (1, startPosition .red),
       (2, startPosition .red), (3, startPosition .red)] ∧
    startPosition .red = 0 ∧
    gameStartRoll6.currentPlayer = some .red ∧
    gameStartRoll6.gameState = Phase.movingPiece ∧
    gameStartRoll6.diceValue = 6 := by
  refine ⟨by decide, by decide, by decide, by decide, by decide⟩

/-! ## C5: destination computation -/

/-- C5: destination computation applies track wraparound modulo 52 together
with home-stretch entry detection, and in particular a red piece (home entry
50) on cell 49 with a die of 1 is sent to cell 50, red's first home-stretch
cell, and not to `(49 + 1) mod 52` read as a plain track cell — the engine
treats the resulting cell 50 as red's home-stretch entry (the moved piece is
detected as finished there, cf. C2). -/
theorem calculateNewPosition_spec :
    (∀ (q : Piece) (d : Nat), q.isHome = false → 0 ≤ q.position →
      q.position < 52 → d ≤ 6 →
      calculateNewPosition q d =
        if shouldEnterHomeStretch q (q.position + d) then
          homePosition q.playerColor + (q.position + d - 52)
        else (q.position + d) % 52) ∧
    (calculateNewPosition redAt49 1 = 50 ∧
      homePosition .red = 50 ∧
      (homeStretchPositions .red).head? = some 50 ∧
      isInFinalHome { redAt49 with position := 50 } = true) := by
  constructor
  · intro q d hnh h0 h52 hd
    have hm1 : ¬q.position = -1 := by omega
    have hcalc : calculateNewPosition q d =
        if shouldEnterHomeStretch q (q.position + d) then
          homePosition q.playerColor + (q.position + d - boardSize)
        else if q.position + d ≥ boardSize then q.position + d - boardSize
        else q.position + d := by
      unfold calculateNewPosition
      simp [hnh, hm1]
    rw [hcalc]
    by_cases hse : shouldEnterHomeStretch q (q.position + d) = true
    · rw [if_pos hse, if_pos hse]
      simp [boardSize]
    · rw [if_neg hse, if_neg hse]
      by_cases hwrap : q.position + d ≥ boardSize
      · rw [if_pos hwrap]
        simp only [boardSize, ge_iff_le] at hwrap ⊢
        omega
      · rw [if_neg hwrap]
        simp only [boardSize, ge_iff_le] at hwrap ⊢
        omega
  · refine ⟨by decide, by decide, by decide, by decide⟩

/-- C5 witness: the general wraparound/entry formula applied to the concrete
red piece on cell 49 with a die of 1. -/
theorem calculateNewPosition_spec_witness :
    calculateNewPosition redAt49 1 =
      if shouldEnterHomeStretch redAt49 (redAt49.position + 1) then
        homePosition redAt49.playerColor + (redAt49.position + 1 - 52)
      else (redAt49.position + 1) % 52 :=
  calculateNewPosition_spec.1 redAt49 1 (by decide) (by decide) (by decide)
    (by decide)

/-! ## C4: legal-move enumeration -/

theorem moveEntry_eq_specMoveEntry (dice : Nat) (player : Player) (piece : Piece) :
    (if isValidMove player piece (calculateNewPosition piece dice) dice then
      some (piece.pieceId, calculateNewPosition piece dice)
    else none) = specMoveEntry dice player piece := by
  unfold isValidMove specMoveEntry
  by_cases hh : piece.isHome = true
  · simp [hh]
  · simp only [Bool.not_eq_true] at hh
    by_cases hb : piece.position = -1
    · by_cases hd : dice = 6
      · subst hd
        have : calculateNewPosition piece 6 = startPosition piece.playerColor := by
          unfold calculateNewPosition
          simp [hh, hb]
        simp [hh, hb, this]
      · simp [hh, hb, hd]
    · by_cases hocc : player.pieces.any (fun other =>
          other.pieceId != piece.pieceId &&
          other.position == calculateNewPosition piece dice && !other.isHome) = true
      · simp [hh, hb, hocc]
      · simp [hh, hb, hocc]

/-- C4: `legal_moves(color)` is empty whenever the color is not the current
player or the phase is not `MovingPiece`; otherwise, reading the mover's
pieces in index order 0→3, it returns exactly the pairs described by the
spec rule `specMoveEntry`: the piece is not finished and either (a) it is at
base with a die of exactly 6, destination its color's start cell, or (b) it
is in transit and its computed destination is not occupied by another
non-finished piece of the same color.  In particular a base piece with
dice ≠ 6 never appears. -/
theorem getValidMoves_spec (s : GameState) (c : Color) :
    (s.currentPlayer ≠ some c ∨ s.gameState ≠ Phase.movingPiece →
      getValidMoves s c = []) ∧
    (∀ player, s.currentPlayer = some c → s.gameState = Phase.movingPiece →
      lookupPlayer s.players c = some player →
      getValidMoves s c = player.pieces.filterMap (specMoveEntry s.diceValue player)) := by
  constructor
  · intro h
    unfold getValidMoves
    rw [if_pos h]
  · intro player hcur hphase hlk
    unfold getValidMoves
    rw [if_neg (by push_neg; exact ⟨hcur, hphase⟩), hlk]
    exact List.filterMap_congr
      (fun piece _ => moveEntry_eq_specMoveEntry s.diceValue player piece)

/-- C4 witness: the start scenario, where the rule yields four base-exit
entries. -/
theorem getValidMoves_spec_witness :
    getValidMoves gameStartRoll6 .red =
      (newPlayer .red).pieces.filterMap
        (specMoveEntry gameStartRoll6.diceValue (newPlayer .red)) :=
  (getValidMoves_spec gameStartRoll6 .red).2 (newPlayer .red) (by decide)
    (by decide) (by decide)

/-! ## Anatomy of a successful move -/

theorem movePiece_success_shape (s : GameState) (c : Color) (i : Int)
    (h : (movePiece s c i).1 = true) :
    ∃ player piece,
      s.currentPlayer = some c ∧ s.gameState = Phase.movingPiece ∧
      lookupPlayer s.players c = some player ∧
      ¬(i < 0 ∨ i ≥ 4) ∧
      player.pieces.get? i.toNat = some piece ∧
      isValidMove player piece (calculateNewPosition piece s.diceValue)
        s.diceValue = true ∧
      movePiece s c i = (true, executeMove s c i.toNat piece player) := by
  by_cases h1 : s.currentPlayer ≠ some c ∨ s.gameState ≠ Phase.movingPiece
  · have hE : movePiece s c i = (false, s, []) := by
      unfold movePiece
      rw [if_pos h1]
    rw [hE] at h
    cases h
  · have h1' : s.currentPlayer = some c ∧ s.gameState = Phase.movingPiece := by
      push_neg at h1
      exact h1
    cases hlk : lookupPlayer s.players c with
    | none =>
      have hE : movePiece s c i = (false, s, []) := by
        unfold movePiece
        rw [if_neg h1]
        simp only [hlk]
      rw [hE] at h
      cases h
    | some player =>
      by_cases h2 : i < 0 ∨ i ≥ 4
      · have hE : movePiece s c i = (false, s, []) := by
          unfold movePiece
          rw [if_neg h1]
          simp only [hlk]
          rw [if_pos h2]
        rw [hE] at h
        cases h
      · cases hq : player.pieces.get? i.toNat with
        | none =>
          have hE : movePiece s c i = (false, s, []) := by
            unfold movePiece
            rw [if_neg h1]
            simp only [hlk]
            rw [if_neg h2]
            simp only [hq]
          rw [hE] at h
          cases h
        | some piece =>
          by_cases h3 : isValidMove player piece
              (calculateNewPosition piece s.diceValue) s.diceValue = true
          · refine ⟨player, piece, h1'.1, h1'.2, rfl, h2, hq, h3, ?_⟩
            unfold movePiece
            rw [if_neg h1]
            simp only [hlk]
            rw [if_neg h2]
            simp only [hq]
            rw [if_neg (not_not_intro h3)]
          · have hE : movePiece s c i =
                (false, s, [Event.invalidMove i.toNat s.diceValue]) := by
              unfold movePiece
              rw [if_neg h1]
              simp only [hlk]
              rw [if_neg h2]
              simp only [hq]
              rw [if_pos h3]
            rw [hE] at h
            cases h

theorem checkCapture_safe (ps : List (Color × Player)) (mc : Color) (pos : Int)
    (h : safePositions.contains pos = true) : checkCapture ps mc pos = none := by
  unfold checkCapture
  rw [if_pos h]

theorem nextTurn_players (t : GameState) : (nextTurn t).1.players = t.players := by
  unfold nextTurn
  cases t.currentPlayer <;> rfl

theorem nextTurn_events (t : GameState) :
    (nextTurn t).2 = [] ∨ ∃ nxt, (nextTurn t).2 = [Event.playerTurnChanged nxt] := by
  unfold nextTurn
  cases t.currentPlayer with
  | none => exact Or.inl rfl
  | some cur => exact Or.inr ⟨_, rfl⟩



/-! ## C8: safe cells never trigger captures -/

theorem successEvents_no_capture (s : GameState) (c : Color) (pid : Nat)
    (piece : Piece) (player : Player)
    (hnone : checkCapture
      (setPlayer s.players c
        (updatedMover player pid piece (calculateNewPosition piece s.diceValue)))
      c (calculateNewPosition piece s.diceValue) = none) :
    ∀ cap capr, Event.pieceCaptured cap capr ∉ successEvents s c pid piece player := by
  intro cap capr
  unfold successEvents
  simp only [hnone]
  by_cases hr : isInFinalHome
      { piece with position := calculateNewPosition piece s.diceValue } = true
  · by_cases hw : hasWonAt (movedState s c pid piece player) c = true
    · simp [hr, hw]
    · rcases nextTurn_events (movedState s c pid piece player) with h | ⟨nxt, h⟩ <;>
        simp [hr, hw, h]
  · by_cases hw : hasWonAt (movedState s c pid piece player) c = true
    · simp [hr, hw]
    · rcases nextTurn_events (movedState s c pid piece player) with h | ⟨nxt, h⟩ <;>
        simp [hr, hw, h]

theorem movedPlayers_lookup_other (s : GameState) (c : Color) (pid : Nat)
    (piece : Piece) (player : Player) (c' : Color) (hc : c' ≠ c)
    (hnone : checkCapture
      (setPlayer s.players c
        (updatedMover player pid piece (calculateNewPosition piece s.diceValue)))
      c (calculateNewPosition piece s.diceValue) = none) :
    lookupPlayer (movedPlayers s c pid piece player) c' =
      lookupPlayer s.players c' := by
  unfold movedPlayers
  simp only [hnone]
  rw [lookupPlayer_modifyPieceAt_other _ _ _ _ _ hc,
    lookupPlayer_setPlayer_other _ _ _ _ hc]

/-- C8: a successful move whose destination lies in the safe-cell set
`{0, 8, 13, 21, 26, 34, 39, 47}` emits no `PieceCaptured` event and leaves
every other color's player (hence every opposing piece) unchanged, regardless
of which pieces occupy that cell. -/
theorem safeDestination_no_capture (s : GameState) (c : Color) (i : Int)
    (hmove : (movePiece s c i).1 = true)
    (hsafe : ∀ player piece, lookupPlayer s.players c = some player →
      player.pieces.get? i.toNat = some piece →
      safePositions.contains (calculateNewPosition piece s.diceValue) = true) :
    (∀ cap capr, Event.pieceCaptured cap capr ∉ (movePiece s c i).2.2) ∧
    (∀ c', c' ≠ c → lookupPlayer (movePiece s c i).2.1.players c' =
      lookupPlayer s.players c') := by
  obtain ⟨player, piece, -, -, hlk, -, hq, -, hEq⟩ :=
    movePiece_success_shape s c i hmove
  have hs : safePositions.contains (calculateNewPosition piece s.diceValue) = true :=
    hsafe player piece hlk hq
  rw [hEq]
  constructor
  · intro cap capr
    show Event.pieceCaptured cap capr ∉ (executeMove s c i.toNat piece player).2
    unfold executeMove
    by_cases hw : hasWonAt (movedState s c i.toNat piece player) c = true
    · rw [if_pos hw]
      exact successEvents_no_capture s c i.toNat piece player
        (checkCapture_safe _ _ _ hs) cap capr
    · rw [if_neg hw]
      exact successEvents_no_capture s c i.toNat piece player
        (checkCapture_safe _ _ _ hs) cap capr
  · intro c' hc'
    show lookupPlayer (executeMove s c i.toNat piece player).1.players c' = _
    unfold executeMove
    by_cases hw : hasWonAt (movedState s c i.toNat piece player) c = true
    · rw [if_pos hw]
      show lookupPlayer (movedState s c i.toNat piece player).players c' = _
      exact movedPlayers_lookup_other s c i.toNat piece player c' hc'
        (checkCapture_safe _ _ _ hs)
    · rw [if_neg hw]
      rw [nextTurn_players]
      exact movedPlayers_lookup_other s c i.toNat piece player c' hc'
        (checkCapture_safe _ _ _ hs)

/-- C8 witness: the opening move of the start scenario lands on cell 0, a
safe cell: no capture event, and green, yellow and blue are untouched. -/
theorem safeDestination_no_capture_witness :
    (∀ cap capr,
      Event.pieceCaptured cap capr ∉ (movePiece gameStartRoll6 .red 0).2.2) ∧
    (∀ c', c' ≠ .red →
      lookupPlayer (movePiece gameStartRoll6 .red 0).2.1.players c' =
        lookupPlayer gameStartRoll6.players c') :=
  safeDestination_no_capture gameStartRoll6 .red 0 (by decide)
    (fun player piece hlk hq => by
      rw [show lookupPlayer gameStartRoll6.players .red = some (newPlayer .red)
          from by decide] at hlk
      cases hlk
      rw [show (newPlayer .red).pieces.get? (0 : Int).toNat =
          some (mkPiece .red 0) from by decide] at hq
      cases hq
      decide)

/-! ## Preservation of the structural invariant -/

theorem isValidMove_facts (player : Player) (piece : Piece) (np : Int) (d : Nat)
    (h : isValidMove player piece np d = true) :
    piece.isHome = false ∧ (piece.position = -1 → d = 6) := by
  unfold isValidMove at h
  by_cases hh : piece.isHome = true
  · rw [if_pos hh] at h
    cases h
  · simp only [Bool.not_eq_true] at hh
    refine ⟨hh, ?_⟩
    intro hb
    rw [if_neg (by simp [hh]), if_pos hb] at h
    simpa using h

theorem playerWF_updatedMover (c : Color) (player : Player) (pid : Nat)
    (piece : Piece) (d : Nat) (hWF : playerWF c player)
    (hget : player.pieces.get? pid = some piece)
    (hnh : piece.isHome = false) (hbase : piece.position = -1 → d = 6)
    (hd : d ≤ 6) :
    playerWF c (updatedMover player pid piece (calculateNewPosition piece d)) := by
  obtain ⟨hcol, hlen, hpieces, hcount⟩ := hWF
  have hpWF : pieceWF c pid piece := hpieces pid piece hget
  have hrange := calculateNewPosition_range c pid piece d hpWF hnh hd hbase
  have hqcol : piece.playerColor = c := hpWF.1
  have hqid : piece.pieceId = pid := hpWF.2.1
  unfold updatedMover
  set np := calculateNewPosition piece d with hnp
  by_cases hr : isInFinalHome { piece with position := np } = true
  · rw [if_pos hr, if_pos hr]
    have hbounds : homePosition c ≤ np ∧ np ≤ homePosition c + 5 := by
      have := (isInFinalHome_update piece np).mp hr
      rwa [hqcol] at this
    refine ⟨hcol, ?_, ?_, ?_⟩
    · simpa [listModify_length] using hlen
    · intro i q hq
      rw [listModify_get?] at hq
      by_cases hi : i = pid
      · rw [if_pos hi, hget] at hq
        cases hq
        subst hi
        show pieceWF c i { piece with position := np, isHome := true }
        exact ⟨hqcol, hqid, Or.inr (Or.inr hbounds), fun _ => hbounds, fun _ => rfl⟩
      · rw [if_neg hi] at hq
        exact hpieces i q hq
    · have h0 := listModify_countP player.pieces pid
        (fun _ => { piece with position := np, isHome := true })
        (fun q => q.isHome) piece hget
      simp only [hnh] at h0
      simp at h0
      show player.homeCount + 1 =
        List.countP (fun q => q.isHome)
          (listModify player.pieces pid
            (fun _ => { piece with position := np, isHome := true }))
      omega
  · rw [if_neg hr, if_neg hr]
    have hlt : np < 52 := by
      by_contra hge
      exact hr (hrange.2 (by omega))
    have hpos : 0 ≤ np := by
      rcases hrange.1 with h | h
      · exact h.1
      · have := homePosition_range c
        omega
    refine ⟨hcol, ?_, ?_, ?_⟩
    · simpa [listModify_length] using hlen
    · intro i q hq
      rw [listModify_get?] at hq
      by_cases hi : i = pid
      · rw [if_pos hi, hget] at hq
        cases hq
        subst hi
        show pieceWF c i { piece with position := np }
        refine ⟨hqcol, hqid, Or.inr (Or.inl ⟨hpos, hlt⟩), ?_, ?_⟩
        · intro hfalse
          rw [show ({ piece with position := np } : Piece).isHome = piece.isHome
            from rfl, hnh] at hfalse
          cases hfalse
        · intro hx
          rw [show ({ piece with position := np } : Piece).position = np from rfl] at hx
          exact absurd hx (by omega)
      · rw [if_neg hi] at hq
        exact hpieces i q hq
    · have h0 := listModify_countP player.pieces pid
        (fun _ => { piece with position := np })
        (fun q => q.isHome) piece hget
      simp only [hnh] at h0
      simp at h0
      show player.homeCount =
        List.countP (fun q => q.isHome)
          (listModify player.pieces pid (fun _ => { piece with position := np }))
      rw [hnh]
      omega

theorem playerWF_capturedReset (cc : Color) (p : Player) (ci : Nat) (q : Piece)
    (hWF : playerWF cc p) (hget : p.pieces.get? ci = some q)
    (hnh : q.isHome = false) :
    playerWF cc { p with pieces := listModify p.pieces ci resetPiece } := by
  obtain ⟨hcol, hlen, hpieces, hcount⟩ := hWF
  refine ⟨hcol, by simpa [listModify_length] using hlen, ?_, ?_⟩
  · intro i r hr
    rw [listModify_get?] at hr
    by_cases hi : i = ci
    · rw [if_pos hi, hget] at hr
      cases hr
      have hqWF : pieceWF cc ci q := hpieces ci q hget
      exact ⟨hqWF.1, by simpa [hi] using hqWF.2.1, Or.inl rfl,
        by simp [resetPiece], by simp [resetPiece]⟩
    · rw [if_neg hi] at hr
      exact hpieces i r hr
  · have := listModify_countP p.pieces ci resetPiece (fun r => r.isHome) q hget
    simp only [hnh, Bool.false_eq_true, if_false, resetPiece] at this
    simp only [hcount]
    omega

theorem playerWF_safeFlag (c : Color) (p : Player) (pid : Nat) (np : Int)
    (hWF : playerWF c p) :
    playerWF c { p with pieces := listModify p.pieces pid (safeFlag np) } := by
  obtain ⟨hcol, hlen, hpieces, hcount⟩ := hWF
  refine ⟨hcol, by simpa [listModify_length] using hlen, ?_, ?_⟩
  · intro i r hr
    rw [listModify_get?] at hr
    by_cases hi : i = pid
    · rw [if_pos hi] at hr
      cases hq : p.pieces.get? pid with
      | none =>
        rw [hq] at hr
        cases hr
      | some q =>
        rw [hq] at hr
        cases hr
        have hqWF : pieceWF c pid q := hpieces pid q hq
        subst hi
        exact ⟨hqWF.1, hqWF.2.1, hqWF.2.2.1, hqWF.2.2.2.1, hqWF.2.2.2.2⟩
    · rw [if_neg hi] at hr
      exact hpieces i r hr
  · rw [hcount]
    exact (listModify_countP_of_inv p.pieces pid (safeFlag np)
      (fun r => r.isHome) (fun _ => rfl)).symm

theorem checkCapture_some_findCapture (ps : List (Color × Player)) (mc : Color)
    (pos : Int) (x : Color × Nat) (h : checkCapture ps mc pos = some x) :
    findCapture ps mc pos = some x := by
  unfold checkCapture at h
  by_cases hs : safePositions.contains pos = true
  · rw [if_pos hs] at h
    cases h
  · rwa [if_neg hs] at h

theorem gameWF_movedPlayers (s : GameState) (c : Color) (pid : Nat)
    (piece : Piece) (player : Player) (hWF : gameWF s)
    (hlk : lookupPlayer s.players c = some player)
    (hget : player.pieces.get? pid = some piece)
    (hvalid : isValidMove player piece (calculateNewPosition piece s.diceValue)
      s.diceValue = true) :
    (∀ cp ∈ movedPlayers s c pid piece player, playerWF cp.1 cp.2) ∧
    (movedPlayers s c pid piece player).map Prod.fst = s.players.map Prod.fst := by
  obtain ⟨hall, hnd, hdice⟩ := hWF
  have hfacts := isValidMove_facts player piece _ _ hvalid
  have hpWF : playerWF c player := by
    have hmem := lookupPlayer_mem s.players c player hlk
    exact hall (c, player) hmem
  have hupd : playerWF c
      (updatedMover player pid piece (calculateNewPosition piece s.diceValue)) :=
    playerWF_updatedMover c player pid piece s.diceValue hpWF hget hfacts.1
      hfacts.2 hdice
  unfold movedPlayers
  set np := calculateNewPosition piece s.diceValue with hnp
  set ps1 := setPlayer s.players c (updatedMover player pid piece np) with hps1
  have hps1_all : ∀ cp ∈ ps1, playerWF cp.1 cp.2 := by
    intro cp hcp
    obtain ⟨cp0, hcp0, hor⟩ := mem_setPlayer _ _ _ _ hcp
    rcases hor with ⟨hk, heq⟩ | ⟨-, heq⟩
    · rw [heq]
      rw [hk]
      exact hupd
    · rw [heq]
      exact hall cp0 hcp0
  have hps1_fst : ps1.map Prod.fst = s.players.map Prod.fst :=
    setPlayer_map_fst s.players c _
  have hps1_nd : (ps1.map Prod.fst).Nodup := by
    rw [hps1_fst]
    exact hnd
  have hlk1 : lookupPlayer ps1 c = some (updatedMover player pid piece np) := by
    rw [hps1, lookupPlayer_setPlayer_self, hlk]
    rfl
  cases hcap : checkCapture ps1 c np with
  | none =>
    simp only [hcap]
    have hlk2 : lookupPlayer ps1 c = some (updatedMover player pid piece np) := hlk1
    constructor
    · intro cp hcp
      obtain ⟨cp0, hcp0, hor⟩ := mem_modifyPieceAt _ _ _ _ _ hcp
      rcases hor with ⟨hk, heq⟩ | ⟨-, heq⟩
      · rw [heq, hk]
        have : cp0.2 = updatedMover player pid piece np := by
          have := lookupPlayer_of_mem_nodup ps1 c cp0.2 hps1_nd (by
            have : cp0 = (cp0.1, cp0.2) := rfl
            rw [← hk]
            exact hcp0)
          rw [hlk2] at this
          exact (Option.some.injEq _ _).mp this.symm
        rw [this]
        exact playerWF_safeFlag c _ pid np hupd
      · rw [heq]
        exact hps1_all cp0 hcp0
    · rw [modifyPieceAt_map_fst, hps1_fst]
  | some x =>
    obtain ⟨cc, ci⟩ := x
    simp only [hcap]
    have hfind := checkCapture_some_findCapture ps1 c np (cc, ci) hcap
    obtain ⟨p, q, hlkcc, hgetq, hqpos, hqnh, hqcol⟩ :=
      findCapture_spec ps1 c np cc ci hps1_nd hfind
    have hpcc : playerWF cc p :=
      hps1_all (cc, p) (lookupPlayer_mem ps1 cc p hlkcc)
    have hccne : cc ≠ c := by
      have : q.playerColor = cc := (hpcc.2.2.1 ci q hgetq).1
      rw [← this]
      exact hqcol
    have hcapWF : playerWF cc { p with pieces := listModify p.pieces ci resetPiece } :=
      playerWF_capturedReset cc p ci q hpcc hgetq hqnh
    set ps2 := modifyPieceAt ps1 cc ci resetPiece with hps2
    have hps2_all : ∀ cp ∈ ps2, playerWF cp.1 cp.2 := by
      intro cp hcp
      obtain ⟨cp0, hcp0, hor⟩ := mem_modifyPieceAt _ _ _ _ _ hcp
      rcases hor with ⟨hk, heq⟩ | ⟨-, heq⟩
      · rw [heq, hk]
        have : cp0.2 = p := by
          have := lookupPlayer_of_mem_nodup ps1 cc cp0.2 hps1_nd (by
            rw [← hk]
            exact hcp0)
          rw [hlkcc] at this
          exact (Option.some.injEq _ _).mp this.symm
        rw [this]
        exact hcapWF
      · rw [heq]
        exact hps1_all cp0 hcp0
    have hps2_fst : ps2.map Prod.fst = s.players.map Prod.fst := by
      rw [hps2, modifyPieceAt_map_fst, hps1_fst]
    have hps2_nd : (ps2.map Prod.fst).Nodup := by
      rw [hps2_fst]
      exact hnd
    have hlk2 : lookupPlayer ps2 c = some (updatedMover player pid piece np) := by
      rw [hps2, lookupPlayer_modifyPieceAt_other _ _ _ _ _ (Ne.symm hccne)]
      exact hlk1
    constructor
    · intro cp hcp
      obtain ⟨cp0, hcp0, hor⟩ := mem_modifyPieceAt _ _ _ _ _ hcp
      rcases hor with ⟨hk, heq⟩ | ⟨-, heq⟩
      · rw [heq, hk]
        have : cp0.2 = updatedMover player pid piece np := by
          have := lookupPlayer_of_mem_nodup ps2 c cp0.2 hps2_nd (by
            rw [← hk]
            exact hcp0)
          rw [hlk2] at this
          exact (Option.some.injEq _ _).mp this.symm
        rw [this]
        exact playerWF_safeFlag c _ pid np hupd
      · rw [heq]
        exact hps2_all cp0 hcp0
    · rw [modifyPieceAt_map_fst, hps2_fst]

theorem gameWF_startGame (t : GameState) (h : gameWF t) : gameWF (startGame t).1 := by
  unfold startGame
  by_cases hl : t.players.length ≠ 4
  · rw [if_pos hl]
    exact h
  · rw [if_neg hl]
    exact ⟨h.1, h.2.1, h.2.2⟩

theorem playerWF_resetAll (c : Color) (p : Player) (h : playerWF c p) :
    playerWF c { p with pieces := p.pieces.map resetPiece, homeCount := 0 } := by
  obtain ⟨hcol, hlen, hpieces, -⟩ := h
  refine ⟨hcol, by simpa using hlen, ?_, ?_⟩
  · intro i q hq
    rw [List.get?_map] at hq
    cases hg : p.pieces.get? i with
    | none =>
      rw [hg] at hq
      cases hq
    | some r =>
      rw [hg] at hq
      cases hq
      have hrWF := hpieces i r hg
      exact ⟨hrWF.1, hrWF.2.1, Or.inl rfl, by simp [resetPiece], by simp [resetPiece]⟩
  · show (0 : Nat) = _
    rw [List.countP_map]
    symm
    rw [List.countP_eq_zero]
    intro a _
    simp [Function.comp, resetPiece]

theorem nextTurn_diceValue (t : GameState) :
    (nextTurn t).1.diceValue = t.diceValue := by
  unfold nextTurn
  cases t.currentPlayer <;> rfl

theorem gameWF_applyOp (s : GameState) (op : Op) (h : gameWF s) :
    gameWF (applyOp s op).2.1 := by
  obtain ⟨hall, hnd, hdice⟩ := h
  cases op with
  | add c =>
    show gameWF (addPlayer s c).2.1
    cases hlk : lookupPlayer s.players c with
    | some p =>
      unfold addPlayer
      rw [hlk]
      exact ⟨hall, hnd, hdice⟩
    | none =>
      have hnotin : c ∉ s.players.map Prod.fst :=
        (lookupPlayer_eq_none_iff s.players c).mp hlk
      have h1 : gameWF { s with players := s.players ++ [(c, newPlayer c)] } := by
        refine ⟨?_, ?_, hdice⟩
        · intro cp hcp
          rcases List.mem_append.mp hcp with h | h
          · exact hall cp h
          · rw [List.mem_singleton.mp h]
            exact playerWF_newPlayer c
        · rw [List.map_append]
          simp only [List.map_cons, List.map_nil]
          rw [List.nodup_append]
          exact ⟨hnd, List.nodup_singleton c, by simpa using hnotin⟩
      unfold addPlayer
      simp only [hlk]
      split
      · exact gameWF_startGame _ h1
      · exact h1
  | remove c =>
    show gameWF (removePlayer s c).2
    unfold removePlayer
    cases hlk : lookupPlayer s.players c with
    | none => exact ⟨hall, hnd, hdice⟩
    | some p =>
      refine ⟨?_, ?_, hdice⟩
      · intro cp hcp
        exact hall cp (List.mem_of_mem_filter hcp)
      · exact List.Nodup.sublist
          (List.Sublist.map Prod.fst (List.filter_sublist s.players)) hnd
  | roll d =>
    show gameWF (rollDice s (d.val + 1)).2.1
    unfold rollDice
    by_cases hp : s.gameState ≠ Phase.rollingDice
    · rw [if_pos hp]
      exact ⟨hall, hnd, hdice⟩
    · rw [if_neg hp]
      refine ⟨hall, hnd, ?_⟩
      show d.val + 1 ≤ 6
      have := d.isLt
      omega
  | move c i =>
    show gameWF (movePiece s c i).2.1
    by_cases hres : (movePiece s c i).1 = true
    · obtain ⟨player, piece, -, -, hlk, -, hq, hvalid, hEq⟩ :=
        movePiece_success_shape s c i hres
      rw [hEq]
      have hmp := gameWF_movedPlayers s c i.toNat piece player
        ⟨hall, hnd, hdice⟩ hlk hq hvalid
      show gameWF (executeMove s c i.toNat piece player).1
      unfold executeMove
      by_cases hw : hasWonAt (movedState s c i.toNat piece player) c = true
      · rw [if_pos hw]
        refine ⟨hmp.1, ?_, hdice⟩
        rw [show ({ movedState s c i.toNat piece player with
            gameState := Phase.gameOver } : GameState).players =
          movedPlayers s c i.toNat piece player from rfl, hmp.2]
        exact hnd
      · rw [if_neg hw]
        refine ⟨?_, ?_, ?_⟩
        · rw [nextTurn_players]
          exact hmp.1
        · rw [nextTurn_players]
          show (movedPlayers s c i.toNat piece player).map Prod.fst |>.Nodup
          rw [hmp.2]
          exact hnd
        · rw [nextTurn_diceValue]
          exact hdice
    · have hfail : (movePiece s c i).1 = false := by
        cases hb : (movePiece s c i).1
        · rfl
        · exact absurd hb hres
      rw [(movePiece_failure_frame s c i hfail).1]
      exact ⟨hall, hnd, hdice⟩
  | reset =>
    show gameWF (resetGame s).1
    set ps2 := s.players.map (fun cp => (cp.1, { cp.2 with pieces := cp.2.pieces.map resetPiece, homeCount := 0 })) with hps2
    have h1 : gameWF { players := ps2, currentPlayer := none, gameState := Phase.waitingForPlayers, diceValue := 0 } := by
      refine ⟨?_, ?_, Nat.zero_le 6⟩
      · intro cp hcp
        obtain ⟨cp0, hcp0, heq⟩ := List.mem_map.mp hcp
        rw [← heq]
        exact playerWF_resetAll cp0.1 cp0.2 (hall cp0 hcp0)
      · show (List.map Prod.fst ps2).Nodup
        rw [hps2, List.map_map]
        exact hnd
    simp only [resetGame]
    split
    · exact gameWF_startGame _ h1
    · exact h1

theorem gameWF_runOps (s : GameState) (ops : List Op) (h : gameWF s) :
    gameWF (runOps s ops) := by
  induction ops generalizing s with
  | nil => exact h
  | cons op rest ih =>
    exact ih (applyOp s op).2.1 (gameWF_applyOp s op h)

theorem reachable_gameWF (s : GameState) (h : Reachable s) : gameWF s := by
  obtain ⟨ops, hops⟩ := h
  rw [← hops]
  exact gameWF_runOps initGame ops gameWF_initGame

/-! ## C6: global safety invariant -/

theorem sum_le_four_mul_length (l : List Nat) (h4 : ∀ x ∈ l, x ≤ 4) :
    l.sum ≤ 4 * l.length := by
  induction l with
  | nil => simp
  | cons a as ih =>
    simp only [List.sum_cons, List.length_cons]
    have ha := h4 a (List.mem_cons_self _ _)
    have := ih (fun x hx => h4 x (List.mem_cons_of_mem _ hx))
    omega

/-- C6: in every state reachable by public operations from the initial game,
the sum of the players' finished counts is at most 16, and every piece's
position is the base sentinel `-1`, a shared-track cell in `[0, 52)`, or a
cell of that piece's color's six-cell home stretch — never anything else. -/
theorem reachable_safety_invariant (s : GameState) (h : Reachable s) :
    sumHomeCounts s ≤ 16 ∧
    ∀ cp ∈ s.players, ∀ q ∈ cp.2.pieces,
      q.position = -1 ∨ (0 ≤ q.position ∧ q.position < 52) ∨
      (homePosition q.playerColor ≤ q.position ∧
        q.position ≤ homePosition q.playerColor + 5) := by
  obtain ⟨hall, hnd, -⟩ := reachable_gameWF s h
  constructor
  · unfold sumHomeCounts
    have hlen : s.players.length ≤ 4 := by
      have h1 : (s.players.map Prod.fst).length ≤ Fintype.card Color :=
        List.Nodup.length_le_card hnd
      rw [List.length_map] at h1
      have h2 : Fintype.card Color = 4 := rfl
      omega
    have hbound : ∀ x ∈ s.players.map (fun cp => cp.2.homeCount), x ≤ 4 := by
      intro x hx
      obtain ⟨cp, hcp, hxeq⟩ := List.mem_map.mp hx
      obtain ⟨-, hplen, -, hcnt⟩ := hall cp hcp
      have : cp.2.homeCount ≤ cp.2.pieces.length := by
        rw [hcnt]
        exact List.countP_le_length _
      rw [← hxeq]
      omega
    have := sum_le_four_mul_length _ hbound
    have : (s.players.map (fun cp => cp.2.homeCount)).length = s.players.length :=
      List.length_map _ _
    omega
  · intro cp hcp q hq
    obtain ⟨-, -, hpieces, -⟩ := hall cp hcp
    obtain ⟨i, hi⟩ := List.mem_iff_get?.mp hq
    obtain ⟨hqcol, -, hpos, -, -⟩ := hpieces i q hi
    rw [hqcol]
    exact hpos

/-- C6 witness: the invariant read off the started four-player game, which is
reachable by four adds and a roll. -/
theorem reachable_safety_invariant_witness :
    sumHomeCounts gameStartRoll6 ≤ 16 ∧
    ∀ cp ∈ gameStartRoll6.players, ∀ q ∈ cp.2.pieces,
      q.position = -1 ∨ (0 ≤ q.position ∧ q.position < 52) ∨
      (homePosition q.playerColor ≤ q.position ∧
        q.position ≤ homePosition q.playerColor + 5) :=
  reachable_safety_invariant gameStartRoll6
    ⟨opsAddFour ++ [Op.roll 5], by unfold gameStartRoll6; rfl⟩

/-! ## C2: finishing a piece -/

theorem movedPlayers_lookup_self (s : GameState) (c : Color) (pid : Nat)
    (piece : Piece) (player : Player) (hWF : gameWF s)
    (hlk : lookupPlayer s.players c = some player)
    (hget : player.pieces.get? pid = some piece)
    (hvalid : isValidMove player piece (calculateNewPosition piece s.diceValue)
      s.diceValue = true) :
    lookupPlayer (movedPlayers s c pid piece player) c =
      some { updatedMover player pid piece (calculateNewPosition piece s.diceValue) with
        pieces := listModify (updatedMover player pid piece
          (calculateNewPosition piece s.diceValue)).pieces pid
          (safeFlag (calculateNewPosition piece s.diceValue)) } := by
  obtain ⟨hall, hnd, hdice⟩ := hWF
  have hfacts := isValidMove_facts player piece _ _ hvalid
  have hpWF : playerWF c player :=
    hall (c, player) (lookupPlayer_mem s.players c player hlk)
  have hupd : playerWF c
      (updatedMover player pid piece (calculateNewPosition piece s.diceValue)) :=
    playerWF_updatedMover c player pid piece s.diceValue hpWF hget hfacts.1
      hfacts.2 hdice
  unfold movedPlayers
  set np := calculateNewPosition piece s.diceValue with hnp
  set ps1 := setPlayer s.players c (updatedMover player pid piece np) with hps1
  have hps1_all : ∀ cp ∈ ps1, playerWF cp.1 cp.2 := by
    intro cp hcp
    obtain ⟨cp0, hcp0, hor⟩ := mem_setPlayer _ _ _ _ hcp
    rcases hor with ⟨hk, heq⟩ | ⟨-, heq⟩
    · rw [heq, hk]
      exact hupd
    · rw [heq]
      exact hall cp0 hcp0
  have hps1_nd : (ps1.map Prod.fst).Nodup := by
    rw [hps1, setPlayer_map_fst]
    exact hnd
  have hlk1 : lookupPlayer ps1 c = some (updatedMover player pid piece np) := by
    rw [hps1, lookupPlayer_setPlayer_self, hlk]
    rfl
  cases hcap : checkCapture ps1 c np with
  | none =>
    simp only [hcap]
    rw [lookupPlayer_modifyPieceAt_self, hlk1]
    rfl
  | some x =>
    obtain ⟨cc, ci⟩ := x
    simp only [hcap]
    have hfind := checkCapture_some_findCapture ps1 c np (cc, ci) hcap
    obtain ⟨p, q, hlkcc, hgetq, -, -, hqcol⟩ :=
      findCapture_spec ps1 c np cc ci hps1_nd hfind
    have hpcc : playerWF cc p :=
      hps1_all (cc, p) (lookupPlayer_mem ps1 cc p hlkcc)
    have hccne : cc ≠ c := by
      have : q.playerColor = cc := (hpcc.2.2.1 ci q hgetq).1
      rw [← this]
      exact hqcol
    rw [lookupPlayer_modifyPieceAt_self,
      lookupPlayer_modifyPieceAt_other _ _ _ _ _ (Ne.symm hccne), hlk1]
    rfl

theorem successEvents_pieceHome (s : GameState) (c : Color) (pid : Nat)
    (piece : Piece) (player : Player) :
    (isInFinalHome { piece with position := calculateNewPosition piece s.diceValue } = true →
      Event.pieceHome pid c ∈ successEvents s c pid piece player) ∧
    (isInFinalHome { piece with position := calculateNewPosition piece s.diceValue } = false →
      ∀ pid' c', Event.pieceHome pid' c' ∉ successEvents s c pid piece player) := by
  unfold successEvents
  constructor
  · intro hr
    simp [hr]
  · intro hr pid' c'
    simp only [hr, Bool.false_eq_true, if_false]
    intro hmem
    rcases List.mem_append.mp hmem with h | h
    · rcases List.mem_append.mp h with h | h
      · rcases List.mem_append.mp h with h | h
        · simp at h
        · cases hcap : checkCapture
              (setPlayer s.players c (updatedMover player pid piece
                (calculateNewPosition piece s.diceValue))) c
              (calculateNewPosition piece s.diceValue) with
          | none =>
            rw [hcap] at h
            simp at h
          | some x =>
            obtain ⟨cc, ci⟩ := x
            rw [hcap] at h
            simp at h
      · simp at h
    · by_cases hw : hasWonAt (movedState s c pid piece player) c = true
      · rw [if_pos hw] at h
        simp at h
      · rw [if_neg hw] at h
        rcases nextTurn_events (movedState s c pid piece player) with he | ⟨nxt, he⟩ <;>
          rw [he] at h <;> simp at h

theorem updatedMover_homeCount (player : Player) (pid : Nat) (piece : Piece)
    (np : Int) :
    (updatedMover player pid piece np).homeCount =
      if isInFinalHome { piece with position := np } then player.homeCount + 1
      else player.homeCount := by
  unfold updatedMover
  by_cases hr : isInFinalHome { piece with position := np } = true
  · rw [if_pos hr, if_pos hr, if_pos hr]
  · rw [if_neg hr, if_neg hr, if_neg hr]

theorem updatedMover_pieces (player : Player) (pid : Nat) (piece : Piece)
    (np : Int) :
    (updatedMover player pid piece np).pieces =
      listModify player.pieces pid (fun _ =>
        if isInFinalHome { piece with position := np } then
          { piece with position := np, isHome := true }
        else { piece with position := np }) := by
  unfold updatedMover
  by_cases hr : isInFinalHome { piece with position := np } = true
  · simp [hr]
  · simp [hr]

/-- C2 amended: a successful move marks the moved piece finished, increments
the mover's finished count and emits `PieceReachedHome` if and only if the
destination lies anywhere in that color's six-cell home-stretch range (not
only at the terminal cell); consequently, in every reachable state, every
piece with `finished` set has its position inside its color's home-stretch
range. -/
theorem movePiece_finish_spec :
    (∀ (s : GameState) (c : Color) (i : Int) (player player' : Player)
        (piece piece' : Piece) (s' : GameState) (evs : List Event),
      gameWF s →
      lookupPlayer s.players c = some player →
      player.pieces.get? i.toNat = some piece →
      movePiece s c i = (true, s', evs) →
      lookupPlayer s'.players c = some player' →
      player'.pieces.get? i.toNat = some piece' →
      ((calculateNewPosition piece s.diceValue ∈
          homeStretchPositions piece.playerColor →
        piece'.isHome = true ∧ player'.homeCount = player.homeCount + 1 ∧
        Event.pieceHome i.toNat c ∈ evs) ∧
       (calculateNewPosition piece s.diceValue ∉
          homeStretchPositions piece.playerColor →
        piece'.isHome = false ∧ player'.homeCount = player.homeCount ∧
        ∀ pid' c', Event.pieceHome pid' c' ∉ evs))) ∧
    (∀ s, Reachable s → ∀ cp ∈ s.players, ∀ q ∈ cp.2.pieces, q.isHome = true →
      homePosition cp.1 ≤ q.position ∧ q.position ≤ homePosition cp.1 + 5) := by
  constructor
  · intro s c i player player' piece piece' s' evs hWF hlk hget hmove hlk' hget'
    have hres : (movePiece s c i).1 = true := by rw [hmove]
    obtain ⟨player0, piece0, -, -, hlk0, -, hget0, hvalid0, hEq⟩ :=
      movePiece_success_shape s c i hres
    rw [hlk] at hlk0
    cases hlk0
    rw [hget] at hget0
    cases hget0
    rw [hmove] at hEq
    have hs' : s' = (executeMove s c i.toNat piece player).1 := by
      have := congrArg (fun x => x.2.1) hEq
      exact this
    have hevs : evs = (executeMove s c i.toNat piece player).2 := by
      have := congrArg (fun x => x.2.2) hEq
      exact this
    set np := calculateNewPosition piece s.diceValue with hnp
    have hplayers' : s'.players = movedPlayers s c i.toNat piece player := by
      rw [hs']
      unfold executeMove
      by_cases hw : hasWonAt (movedState s c i.toNat piece player) c = true
      · rw [if_pos hw]
        rfl
      · rw [if_neg hw]
        rw [nextTurn_players]
        rfl
    have hevs' : evs = successEvents s c i.toNat piece player := by
      rw [hevs]
      unfold executeMove
      by_cases hw : hasWonAt (movedState s c i.toNat piece player) c = true
      · rw [if_pos hw]
      · rw [if_neg hw]
    have hlkm := movedPlayers_lookup_self s c i.toNat piece player hWF hlk hget hvalid0
    rw [hplayers', hlkm] at hlk'
    have hplayer' : player' = { updatedMover player i.toNat piece np with
        pieces := listModify (updatedMover player i.toNat piece np).pieces i.toNat
          (safeFlag np) } := by
      cases hlk'
      rfl
    have hfacts := isValidMove_facts player piece _ _ hvalid0
    have hpiece2 : piece' = safeFlag np
        (if isInFinalHome { piece with position := np } then
          { piece with position := np, isHome := true }
        else { piece with position := np }) := by
      have hg2 : (listModify (updatedMover player i.toNat piece np).pieces i.toNat
          (safeFlag np)).get? i.toNat = some piece' := by
        rw [hplayer'] at hget'
        exact hget'
      rw [listModify_get?, if_pos rfl, updatedMover_pieces, listModify_get?,
        if_pos rfl, hget] at hg2
      exact (Option.some.inj hg2).symm
    by_cases hr : isInFinalHome { piece with position := np } = true
    · have hmem : np ∈ homeStretchPositions piece.playerColor :=
        (isInFinalHome_iff _).mp hr
      constructor
      · intro _
        refine ⟨?_, ?_, ?_⟩
        · rw [hpiece2, if_pos hr]
          rfl
        · rw [hplayer']
          show (updatedMover player i.toNat piece np).homeCount = _
          rw [updatedMover_homeCount, if_pos hr]
        · rw [hevs']
          exact (successEvents_pieceHome s c i.toNat piece player).1 hr
      · intro hnot
        exact absurd hmem hnot
    · have hrf : isInFinalHome { piece with position := np } = false := by
        cases hb : isInFinalHome { piece with position := np }
        · rfl
        · exact absurd hb hr
      constructor
      · intro hmem
        exact absurd ((isInFinalHome_iff { piece with position := np }).mpr hmem) hr
      · intro _
        refine ⟨?_, ?_, ?_⟩
        · rw [hpiece2, if_neg hr]
          show piece.isHome = false
          exact hfacts.1
        · rw [hplayer']
          show (updatedMover player i.toNat piece np).homeCount = _
          rw [updatedMover_homeCount, if_neg hr]
        · rw [hevs']
          exact (successEvents_pieceHome s c i.toNat piece player).2 hrf
  · intro s hs cp hcp q hq hqh
    obtain ⟨hall, -, -⟩ := reachable_gameWF s hs
    obtain ⟨-, -, hpieces, -⟩ := hall cp hcp
    obtain ⟨i, hi⟩ := List.mem_iff_get?.mp hq
    exact (hpieces i q hi).2.2.2.1 hqh

set_option maxRecDepth 100000 in
/-- C2 counterexample: a real play (92 operations) brings red's piece 0 to
shared cell 49 with a rolled 1; the successful move lands it on cell 50 —
red's first home-stretch cell, not the terminal cell 55 — yet the engine
marks it finished, increments red's finished count to 1 and emits
`PieceReachedHome`.  The resulting state is reachable, and its finished
piece does not sit on the terminal home cell, contradicting both halves of
the claim. -/
theorem finish_not_terminal_counterexample :
    Reachable sC2post ∧
    (movePiece sC2pre .red 0).1 = true ∧
    Event.pieceHome 0 .red ∈ evsC2 ∧
    lookupPlayer sC2post.players .red = some redPlayerPost ∧
    redPiece50.position = 50 ∧ redPiece50.isHome = true ∧
    (50 : Int) ≠ terminalHomeCell .red :=
  ⟨⟨opsC2 ++ [Op.roll 0, Op.move .red 0], by decide⟩,
   by decide, by decide, by decide, by decide, by decide, by decide⟩

set_option maxRecDepth 100000 in
/-- C2 amended witness: the finish rule applied to the concrete C2 move
(destination 50, inside red's home stretch). -/
theorem movePiece_finish_spec_witness :
    redPiece50.isHome = true ∧
    redPlayerPost.homeCount = redPlayerPre.homeCount + 1 ∧
    Event.pieceHome (0 : Int).toNat .red ∈ evsC2 :=
  (movePiece_finish_spec.1 sC2pre .red 0 redPlayerPre redPlayerPost redPiece49
      redPiece50 sC2post evsC2
      (reachable_gameWF sC2pre ⟨opsC2 ++ [Op.roll 0], by decide⟩)
      (by decide) (by decide) (by decide) (by decide) (by decide)).1 (by decide)

/-! ## C9: reset reproduces the fresh-game snapshot -/

theorem length_four_destruct (l : List α) (h : l.length = 4) :
    ∃ a b c d, l = [a, b, c, d] := by
  match l, h with
  | [a, b, c, d], _ => exact ⟨a, b, c, d, rfl⟩

theorem runAdds_four (c0 c1 c2 c3 : Color) (p01 : c0 ≠ c1) (p02 : c0 ≠ c2)
    (p03 : c0 ≠ c3) (p12 : c1 ≠ c2) (p13 : c1 ≠ c3) (p23 : c2 ≠ c3) :
    runOps initGame [Op.add c0, Op.add c1, Op.add c2, Op.add c3] =
      { players := [(c0, newPlayer c0), (c1, newPlayer c1),
          (c2, newPlayer c2), (c3, newPlayer c3)],
        currentPlayer := some .red, gameState := .rollingDice,
        diceValue := 0 } := by
  simp [runOps, applyOp, addPlayer, lookupPlayer, startGame, initGame,
    p01, p02, p03, p12, p13, p23]

theorem playerSnap_reset (c : Color) (p : Player) (h : playerWF c p) :
    playerSnap { p with pieces := p.pieces.map resetPiece, homeCount := 0 } =
      playerSnap (newPlayer c) := by
  obtain ⟨-, hlen, hpieces, -⟩ := h
  obtain ⟨q0, q1, q2, q3, hqs⟩ := length_four_destruct p.pieces hlen
  have h0 : q0.pieceId = 0 := (hpieces 0 q0 (by rw [hqs]; rfl)).2.1
  have h1 : q1.pieceId = 1 := (hpieces 1 q1 (by rw [hqs]; rfl)).2.1
  have h2 : q2.pieceId = 2 := (hpieces 2 q2 (by rw [hqs]; rfl)).2.1
  have h3 : q3.pieceId = 3 := (hpieces 3 q3 (by rw [hqs]; rfl)).2.1
  unfold playerSnap hasWon piecesInFinalHome
  rw [hqs]
  simp [pieceSnap, resetPiece, newPlayer, mkPiece, h0, h1, h2, h3]

/-- C9: on any reachable game that already has exactly 4 players, `reset()`
produces a state whose snapshot — phase, current player, dice value, and
per-player finished counts, win flags and per-piece position/finished/
protected fields — is identical to the snapshot of a freshly constructed
game to which the same 4 colors were just added in the same order: every
piece at the base sentinel, all finished counts 0, dice value 0, phase
`RollingDice`, and current player the fixed first color (red). -/
theorem resetGame_fresh_snapshot (s : GameState) (h : Reachable s)
    (hlen : s.players.length = 4) :
    getGameState (resetGame s).1 =
      getGameState (runOps initGame (s.players.map (fun cp => Op.add cp.1))) := by
  obtain ⟨hall, hnd, -⟩ := reachable_gameWF s h
  obtain ⟨e0, e1, e2, e3, hps⟩ := length_four_destruct s.players hlen
  obtain ⟨c0, p0⟩ := e0
  obtain ⟨c1, p1⟩ := e1
  obtain ⟨c2, p2⟩ := e2
  obtain ⟨c3, p3⟩ := e3
  rw [hps] at hnd
  simp only [List.map_cons, List.map_nil, List.nodup_cons, List.mem_cons,
    List.mem_singleton, List.not_mem_nil, or_false, not_or] at hnd
  obtain ⟨⟨p01, p02, p03⟩, ⟨p12, p13⟩, p23, -⟩ := hnd
  have hW0 : playerWF c0 p0 := hall (c0, p0) (by rw [hps]; simp)
  have hW1 : playerWF c1 p1 := hall (c1, p1) (by rw [hps]; simp)
  have hW2 : playerWF c2 p2 := hall (c2, p2) (by rw [hps]; simp)
  have hW3 : playerWF c3 p3 := hall (c3, p3) (by rw [hps]; simp)
  unfold resetGame
  rw [hps]
  simp only [List.map_cons, List.map_nil]
  rw [runAdds_four c0 c1 c2 c3 p01 p02 p03 p12 p13 p23]
  rw [if_pos (by simp)]
  unfold startGame
  rw [if_neg (by simp)]
  unfold getGameState
  simp only [List.map_cons, List.map_nil]
  rw [playerSnap_reset c0 p0 hW0, playerSnap_reset c1 p1 hW1,
    playerSnap_reset c2 p2 hW2, playerSnap_reset c3 p3 hW3]

/-- C9 witness: the started four-player game, reset and compared with four
fresh adds of the same colors. -/
theorem resetGame_fresh_snapshot_witness :
    getGameState (resetGame gameAfterAdds).1 =
      getGameState (runOps initGame
        (gameAfterAdds.players.map (fun cp => Op.add cp.1))) :=
  resetGame_fresh_snapshot gameAfterAdds ⟨opsAddFour, by decide⟩ (by decide)

/-! ## C7: the GameOver protocol -/

theorem mem_of_nodup_four (l : List Color) (hnd : l.Nodup) (hlen : l.length = 4)
    (c : Color) : c ∈ l := by
  have hcard : l.toFinset.card = 4 := by
    rw [List.toFinset_card_of_nodup hnd, hlen]
  have huniv : l.toFinset = Finset.univ := by
    apply Finset.eq_univ_of_card
    rw [hcard]
    rfl
  have : c ∈ l.toFinset := by
    rw [huniv]
    exact Finset.mem_univ c
  exact List.mem_toFinset.mp this

theorem addPlayer_full (s : GameState) (c : Color)
    (hnd : (s.players.map Prod.fst).Nodup) (h4 : s.players.length = 4) :
    addPlayer s c = (false, s, []) := by
  have hmem : c ∈ s.players.map Prod.fst :=
    mem_of_nodup_four _ hnd (by rw [List.length_map]; exact h4) c
  obtain ⟨p, hp⟩ := lookupPlayer_isSome_of_mem s.players c hmem
  unfold addPlayer
  rw [hp]

theorem hasWon_eq_countP (p : Player) :
    hasWon p = (p.pieces.countP (fun q => q.isHome) == 4) := by
  unfold hasWon piecesInFinalHome
  rw [List.countP_eq_length_filter]

theorem nextTurn_spec (t : GameState) (cur : Color)
    (hc : t.currentPlayer = some cur) :
    (nextTurn t).1.gameState = Phase.rollingDice ∧
    ∃ nxt, (nextTurn t).1.currentPlayer = some nxt ∧
      (eligibleNext t nxt = true ∨ nxt = cur) := by
  unfold nextTurn
  simp only [hc]
  by_cases h1 : eligibleNext t (colorOfIndex (colorIndex cur + 1)) = true
  · rw [if_pos h1]
    exact ⟨trivial, _, rfl, Or.inl h1⟩
  · rw [if_neg h1]
    by_cases h2 : eligibleNext t (colorOfIndex (colorIndex cur + 2)) = true
    · rw [if_pos h2]
      exact ⟨trivial, _, rfl, Or.inl h2⟩
    · rw [if_neg h2]
      by_cases h3 : eligibleNext t (colorOfIndex (colorIndex cur + 3)) = true
      · rw [if_pos h3]
        exact ⟨trivial, _, rfl, Or.inl h3⟩
      · rw [if_neg h3]
        exact ⟨trivial, _, rfl, Or.inr rfl⟩

theorem countGameOver_append (a b : List Event) :
    countGameOver (a ++ b) = countGameOver a + countGameOver b :=
  List.countP_append _ _ _

theorem countGameOver_successEvents (s : GameState) (c : Color) (pid : Nat)
    (piece : Piece) (player : Player) :
    countGameOver (successEvents s c pid piece player) =
      (if hasWonAt (movedState s c pid piece player) c = true then 1 else 0) := by
  unfold successEvents
  rw [countGameOver_append, countGameOver_append, countGameOver_append]
  have h1 : countGameOver (if isInFinalHome
      { piece with position := calculateNewPosition piece s.diceValue } then
      [Event.pieceHome pid c] else []) = 0 := by
    split <;> simp [countGameOver, isGameOverEv]
  have h2 : countGameOver (match checkCapture
      (setPlayer s.players c (updatedMover player pid piece
        (calculateNewPosition piece s.diceValue))) c
      (calculateNewPosition piece s.diceValue) with
      | some (cc, ci) => [Event.pieceCaptured (cc, ci) (c, pid)]
      | none => []) = 0 := by
    cases hcap : checkCapture (setPlayer s.players c (updatedMover player pid
        piece (calculateNewPosition piece s.diceValue))) c
        (calculateNewPosition piece s.diceValue) with
    | none => simp [countGameOver, isGameOverEv]
    | some x =>
      obtain ⟨cc, ci⟩ := x
      simp [countGameOver, isGameOverEv]
  have h3 : countGameOver [Event.pieceMoved pid piece.position
      (calculateNewPosition piece s.diceValue) s.diceValue] = 0 := by
    simp [countGameOver, isGameOverEv]
  rw [h1, h2, h3]
  by_cases hw : hasWonAt (movedState s c pid piece player) c = true
  · rw [if_pos hw, if_pos hw]
    simp [countGameOver, isGameOverEv]
  · rw [if_neg hw, if_neg hw]
    rcases nextTurn_events (movedState s c pid piece player) with he | ⟨nxt, he⟩ <;>
      rw [he] <;> simp [countGameOver, isGameOverEv]

theorem eligibleNext_spec (t : GameState) (c : Color)
    (h : eligibleNext t c = true) :
    ∃ p, lookupPlayer t.players c = some p ∧ hasWon p = false := by
  unfold eligibleNext at h
  cases hlk : lookupPlayer t.players c with
  | none =>
    simp only [hlk] at h
    cases h
  | some p =>
    simp only [hlk] at h
    exact ⟨p, rfl, by simpa using h⟩

theorem hasWon_false_of_fresh (p : Player)
    (h : ∀ q ∈ p.pieces, q.isHome = false) : hasWon p = false := by
  rw [hasWon_eq_countP]
  have : p.pieces.countP (fun q => q.isHome) = 0 := by
    rw [List.countP_eq_zero]
    intro q hq
    simp [h q hq]
  rw [this]
  rfl

theorem addPlayer_events (s : GameState) (c : Color) :
    (addPlayer s c).2.2 = [] ∨
      ∃ cs, (addPlayer s c).2.2 = [Event.gameStarted cs] := by
  unfold addPlayer
  cases hlk : lookupPlayer s.players c with
  | some p => exact Or.inl rfl
  | none =>
    simp only
    split
    · unfold startGame
      split
      · exact Or.inl rfl
      · exact Or.inr ⟨_, rfl⟩
    · exact Or.inl rfl

theorem addPlayer_phase (s : GameState) (c : Color) :
    (addPlayer s c).2.1.gameState = s.gameState ∨
      (addPlayer s c).2.1.gameState = Phase.rollingDice := by
  unfold addPlayer
  cases hlk : lookupPlayer s.players c with
  | some p => exact Or.inl rfl
  | none =>
    simp only
    split
    · unfold startGame
      split
      · exact Or.inl rfl
      · exact Or.inr rfl
    · exact Or.inl rfl

theorem rollDice_shape (s : GameState) (d : Nat) :
    (rollDice s d = (0, s, []) ∧ s.gameState ≠ Phase.rollingDice) ∨
    (s.gameState = Phase.rollingDice ∧
      rollDice s d = (d, { s with diceValue := d, gameState := Phase.movingPiece },
        [Event.diceRolled d])) := by
  unfold rollDice
  by_cases hp : s.gameState ≠ Phase.rollingDice
  · rw [if_pos hp]
    exact Or.inl ⟨rfl, hp⟩
  · rw [if_neg hp]
    push_neg at hp
    exact Or.inr ⟨hp, rfl⟩

theorem movePiece_gameOver_phase (s : GameState) (c : Color) (i : Int)
    (piece : Piece) (player : Player) (hph : s.gameState = Phase.movingPiece) :
    ((executeMove s c i.toNat piece player).1.gameState = Phase.gameOver ↔
      hasWonAt (movedState s c i.toNat piece player) c = true) := by
  unfold executeMove
  by_cases hw : hasWonAt (movedState s c i.toNat piece player) c = true
  · rw [if_pos hw]
    simp [hw]
  · rw [if_neg hw]
    constructor
    · intro hgo
      exfalso
      unfold nextTurn at hgo
      cases hcur : (movedState s c i.toNat piece player).currentPlayer with
      | none =>
        rw [hcur] at hgo
        simp only at hgo
        have : (movedState s c i.toNat piece player).gameState =
            Phase.movingPiece := hph
        rw [this] at hgo
        cases hgo
      | some cur =>
        rw [hcur] at hgo
        simp only at hgo
        cases hgo
    · intro hww
      exact absurd hww hw

theorem movedState_fields (s : GameState) (c : Color) (pid : Nat)
    (piece : Piece) (player : Player) :
    (movedState s c pid piece player).currentPlayer = s.currentPlayer ∧
    (movedState s c pid piece player).gameState = s.gameState ∧
    (movedState s c pid piece player).players = movedPlayers s c pid piece player :=
  ⟨rfl, rfl, rfl⟩

theorem runInv_addPlayer (s : GameState) (c : Color) (h : RunInv s) :
    RunInv (addPlayer s c).2.1 := by
  obtain ⟨hWF, hlen4, hwait, hcur⟩ := h
  have hWF' : gameWF (addPlayer s c).2.1 := gameWF_applyOp s (.add c) hWF
  by_cases hph : s.gameState = Phase.waitingForPlayers
  · cases hlk : lookupPlayer s.players c with
    | some p =>
      have hE : addPlayer s c = (false, s, []) := by
        unfold addPlayer
        rw [hlk]
      rw [hE]
      exact ⟨hWF, hlen4, hwait, hcur⟩
    | none =>
      have hfresh : ∀ cp ∈ s.players ++ [(c, newPlayer c)], ∀ q ∈ cp.2.pieces,
          q.isHome = false := by
        intro cp hcp q hq
        rcases List.mem_append.mp hcp with hm | hm
        · exact hwait hph cp hm q hq
        · rw [List.mem_singleton.mp hm] at hq
          simp only [newPlayer, List.mem_cons, List.not_mem_nil, or_false] at hq
          rcases hq with h | h | h | h <;> rw [h] <;> rfl
      have hE : (addPlayer s c).2.1 =
          (if (s.players ++ [(c, newPlayer c)]).length = 4 then
            (startGame { s with players := s.players ++ [(c, newPlayer c)] }).1
          else { s with players := s.players ++ [(c, newPlayer c)] }) := by
        unfold addPlayer
        rw [hlk]
        simp only
        split
        · rfl
        · rfl
      rw [hE]
      by_cases hl4 : (s.players ++ [(c, newPlayer c)]).length = 4
      · rw [if_pos hl4]
        unfold startGame
        rw [if_neg (by simpa using hl4)]
        have hWF2 : gameWF { players := s.players ++ [(c, newPlayer c)], currentPlayer := some Color.red, gameState := Phase.rollingDice, diceValue := s.diceValue } := by
          rw [hE, if_pos hl4] at hWF'
          unfold startGame at hWF'
          rwa [if_neg (by simpa using hl4)] at hWF'
        have hnd' : ((s.players ++ [(c, newPlayer c)]).map Prod.fst).Nodup :=
          hWF2.2.1
        refine ⟨hWF2, fun _ => hl4, ?_, fun _ => ?_⟩
        · intro hw
          simp at hw
        · have hmem : Color.red ∈ (s.players ++ [(c, newPlayer c)]).map Prod.fst :=
            mem_of_nodup_four _ hnd' (by rw [List.length_map]; exact hl4) _
          obtain ⟨p, hp⟩ := lookupPlayer_isSome_of_mem _ _ hmem
          refine ⟨Color.red, p, rfl, hp, ?_⟩
          have hpmem := lookupPlayer_mem _ _ _ hp
          exact hasWon_false_of_fresh p (hfresh (Color.red, p) hpmem)
      · rw [if_neg hl4]
        have hSG : ({ s with players := s.players ++ [(c, newPlayer c)] } :
            GameState).gameState = Phase.waitingForPlayers := hph
        refine ⟨?_, ?_, fun _ => hfresh, ?_⟩
        · rw [hE, if_neg hl4] at hWF'
          exact hWF'
        · intro hco
          exact absurd hSG hco
        · intro hor
          rcases hor with hco | hco
          · rw [hSG] at hco
            cases hco
          · rw [hSG] at hco
            cases hco
  · have h4 : s.players.length = 4 := hlen4 hph
    have hE : addPlayer s c = (false, s, []) :=
      addPlayer_full s c hWF.2.1 h4
    rw [hE]
    exact ⟨hWF, hlen4, hwait, hcur⟩

theorem runInv_rollDice (s : GameState) (d : Nat) (hd : d ≤ 6) (h : RunInv s) :
    RunInv (rollDice s d).2.1 := by
  obtain ⟨hWF, hlen4, hwait, hcur⟩ := h
  rcases rollDice_shape s d with ⟨hE, -⟩ | ⟨hph, hE⟩
  · rw [hE]
    exact ⟨hWF, hlen4, hwait, hcur⟩
  · rw [hE]
    have hSG : ({ s with diceValue := d, gameState := Phase.movingPiece } :
        GameState).gameState = Phase.movingPiece := rfl
    refine ⟨⟨hWF.1, hWF.2.1, hd⟩, ?_, ?_, ?_⟩
    · intro _
      exact hlen4 (by rw [hph]; intro hco; cases hco)
    · intro hco
      rw [hSG] at hco
      cases hco
    · intro _
      exact hcur (Or.inl hph)

theorem runInv_movePiece (s : GameState) (c : Color) (i : Int) (h : RunInv s) :
    RunInv (movePiece s c i).2.1 := by
  obtain ⟨hWF, hlen4, hwait, hcur⟩ := h
  by_cases hres : (movePiece s c i).1 = true
  · obtain ⟨player, piece, hcurc, hph, hlk, -, hget, hvalid, hEq⟩ :=
      movePiece_success_shape s c i hres
    have hWF' : gameWF (movePiece s c i).2.1 := gameWF_applyOp s (.move c i) hWF
    have hkeys : (movedPlayers s c i.toNat piece player).map Prod.fst =
        s.players.map Prod.fst :=
      (gameWF_movedPlayers s c i.toNat piece player hWF hlk hget hvalid).2
    have hlen' : (movedPlayers s c i.toNat piece player).length = 4 := by
      have h1 := congrArg List.length hkeys
      rw [List.length_map, List.length_map] at h1
      rw [h1]
      exact hlen4 (by rw [hph]; intro hco; cases hco)
    rw [hEq]
    show RunInv (executeMove s c i.toNat piece player).1
    rw [hEq] at hWF'
    have hWFex : gameWF (executeMove s c i.toNat piece player).1 := hWF'
    by_cases hw : hasWonAt (movedState s c i.toNat piece player) c = true
    · have hEx : (executeMove s c i.toNat piece player).1 =
          { movedState s c i.toNat piece player with gameState := Phase.gameOver } := by
        unfold executeMove
        rw [if_pos hw]
      rw [hEx] at hWFex ⊢
      refine ⟨hWFex, fun _ => hlen', ?_, ?_⟩
      · intro hco
        simp at hco
      · intro hor
        rcases hor with hco | hco <;> simp at hco
    · have hEx : (executeMove s c i.toNat piece player).1 =
          (nextTurn (movedState s c i.toNat piece player)).1 := by
        unfold executeMove
        rw [if_neg hw]
      rw [hEx] at hWFex ⊢
      have hcur3 : (movedState s c i.toNat piece player).currentPlayer = some c := by
        rw [(movedState_fields s c i.toNat piece player).1]
        exact hcurc
      obtain ⟨hphn, nxt, hnxt, hel⟩ :=
        nextTurn_spec (movedState s c i.toNat piece player) c hcur3
      refine ⟨hWFex, ?_, ?_, ?_⟩
      · intro _
        rw [nextTurn_players]
        exact hlen'
      · intro hco
        rw [hphn] at hco
        cases hco
      · intro _
        rcases hel with helig | hceq
        · obtain ⟨p, hp, hpw⟩ := eligibleNext_spec _ _ helig
          refine ⟨nxt, p, hnxt, ?_, hpw⟩
          rw [nextTurn_players]
          exact hp
        · rw [hceq] at hnxt
          have hlkm := movedPlayers_lookup_self s c i.toNat piece player hWF hlk
            hget hvalid
          refine ⟨c, { updatedMover player i.toNat piece (calculateNewPosition piece s.diceValue) with pieces := listModify (updatedMover player i.toNat piece (calculateNewPosition piece s.diceValue)).pieces i.toNat (safeFlag (calculateNewPosition piece s.diceValue)) }, hnxt, ?_, ?_⟩
          · rw [nextTurn_players]
            exact hlkm
          · unfold hasWonAt at hw
            rw [(movedState_fields s c i.toNat piece player).2.2] at hw
            simp only [hlkm] at hw
            simpa using hw
  · have hfail : (movePiece s c i).1 = false := by
      cases hb : (movePiece s c i).1
      · rfl
      · exact absurd hb hres
    rw [(movePiece_failure_frame s c i hfail).1]
    exact ⟨hWF, hlen4, hwait, hcur⟩

theorem executeMove_events (s : GameState) (c : Color) (pid : Nat)
    (piece : Piece) (player : Player) :
    (executeMove s c pid piece player).2 = successEvents s c pid piece player := by
  unfold executeMove
  split <;> rfl

theorem runOp_inv (s : GameState) (op : Op) (hrun : isRunOp op = true)
    (h : RunInv s) : RunInv (applyOp s op).2.1 := by
  cases op with
  | add c => exact runInv_addPlayer s c h
  | remove c => cases hrun
  | roll d =>
    show RunInv (rollDice s (d.val + 1)).2.1
    exact runInv_rollDice s (d.val + 1) (by have := d.isLt; omega) h
  | move c i => exact runInv_movePiece s c i h
  | reset => cases hrun

theorem runOp_count (s : GameState) (op : Op) (hrun : isRunOp op = true)
    (h : RunInv s) :
    countGameOver (applyOp s op).2.2 +
        (if s.gameState = Phase.gameOver then 1 else 0) =
      (if (applyOp s op).2.1.gameState = Phase.gameOver then 1 else 0) := by
  obtain ⟨hWF, hlen4, hwait, hcur⟩ := h
  cases op with
  | add c =>
    show countGameOver (addPlayer s c).2.2 + _ =
      (if (addPlayer s c).2.1.gameState = Phase.gameOver then 1 else 0)
    have hev : countGameOver (addPlayer s c).2.2 = 0 := by
      rcases addPlayer_events s c with he | ⟨cs, he⟩ <;>
        rw [he] <;> simp [countGameOver, isGameOverEv]
    rw [hev]
    by_cases hgo : s.gameState = Phase.gameOver
    · have hE : addPlayer s c = (false, s, []) :=
        addPlayer_full s c hWF.2.1 (hlen4 (by rw [hgo]; intro hco; cases hco))
      rw [hE, if_pos hgo]
    · rw [if_neg hgo]
      rcases addPlayer_phase s c with hp | hp
      · rw [hp, if_neg hgo]
      · rw [hp]
        rw [if_neg (by intro hco; cases hco)]
  | remove c => cases hrun
  | roll d =>
    show countGameOver (rollDice s (d.val + 1)).2.2 + _ =
      (if (rollDice s (d.val + 1)).2.1.gameState = Phase.gameOver then 1 else 0)
    rcases rollDice_shape s (d.val + 1) with ⟨hE, -⟩ | ⟨hph, hE⟩
    · rw [hE]
      simp [countGameOver, isGameOverEv]
    · rw [hE, hph]
      simp [countGameOver, isGameOverEv]
  | move c i =>
    show countGameOver (movePiece s c i).2.2 + _ =
      (if (movePiece s c i).2.1.gameState = Phase.gameOver then 1 else 0)
    by_cases hres : (movePiece s c i).1 = true
    · obtain ⟨player, piece, -, hph, hlk, -, hget, hvalid, hEq⟩ :=
        movePiece_success_shape s c i hres
      rw [hEq]
      show countGameOver (executeMove s c i.toNat piece player).2 + _ =
        (if (executeMove s c i.toNat piece player).1.gameState = Phase.gameOver
          then 1 else 0)
      rw [executeMove_events, countGameOver_successEvents, hph]
      by_cases hw : hasWonAt (movedState s c i.toNat piece player) c = true
      · rw [if_pos hw,
          if_pos ((movePiece_gameOver_phase s c i piece player hph).mpr hw)]
        decide
      · rw [if_neg hw, if_neg (fun hco =>
          hw ((movePiece_gameOver_phase s c i piece player hph).mp hco))]
        decide
    · have hfail : (movePiece s c i).1 = false := by
        cases hb : (movePiece s c i).1
        · rfl
        · exact absurd hb hres
      obtain ⟨hstate, hevs, -, -⟩ := movePiece_failure_frame s c i hfail
      rw [hstate]
      rcases hevs with he | he <;> rw [he] <;> simp [countGameOver, isGameOverEv]
  | reset => cases hrun

theorem runInv_initGame : RunInv initGame := by
  refine ⟨gameWF_initGame, ?_, ?_, ?_⟩
  · intro h
    exact absurd rfl h
  · intro _ cp hcp
    simp [initGame] at hcp
  · intro h
    rcases h with h | h <;> cases h

theorem runTrace_go (ops : List Op) (t : GameState) (evs : List Event)
    (hops : ∀ op ∈ ops, isRunOp op = true) (ht : RunInv t)
    (hevs : countGameOver evs = (if t.gameState = Phase.gameOver then 1 else 0)) :
    RunInv (List.foldl (fun u op =>
        let (_, s', es) := applyOp u.1 op
        (s', u.2 ++ es)) (t, evs) ops).1 ∧
      countGameOver (List.foldl (fun u op =>
        let (_, s', es) := applyOp u.1 op
        (s', u.2 ++ es)) (t, evs) ops).2 =
        (if (List.foldl (fun u op =>
            let (_, s', es) := applyOp u.1 op
            (s', u.2 ++ es)) (t, evs) ops).1.gameState = Phase.gameOver
          then 1 else 0) := by
  induction ops generalizing t evs with
  | nil => exact ⟨ht, hevs⟩
  | cons op rest ih =>
    have hop : isRunOp op = true := hops op (List.mem_cons_self _ _)
    have hrest : ∀ o ∈ rest, isRunOp o = true :=
      fun o ho => hops o (List.mem_cons_of_mem _ ho)
    have ht' : RunInv (applyOp t op).2.1 := runOp_inv t op hop ht
    have hevs' : countGameOver (evs ++ (applyOp t op).2.2) =
        (if (applyOp t op).2.1.gameState = Phase.gameOver then 1 else 0) := by
      rw [countGameOver_append, hevs, Nat.add_comm]
      exact runOp_count t op hop ht
    exact ih (applyOp t op).2.1 (evs ++ (applyOp t op).2.2) hrest ht' hevs'

theorem runTrace_run_inv (ops : List Op) (hops : ∀ op ∈ ops, isRunOp op = true) :
    RunInv (runTrace initGame ops).1 ∧
      countGameOver (runTrace initGame ops).2 =
        (if (runTrace initGame ops).1.gameState = Phase.gameOver
          then 1 else 0) := by
  exact runTrace_go ops initGame [] hops runInv_initGame rfl

theorem afterGameOver_dead (s : GameState) (hph : s.gameState = Phase.gameOver) :
    (∀ c i, (movePiece s c i).1 = false) ∧ (∀ d, (rollDice s d).1 = 0) := by
  constructor
  · intro c i
    by_cases hres : (movePiece s c i).1 = true
    · obtain ⟨player, piece, hcp, hph', -⟩ := movePiece_success_shape s c i hres
      rw [hph] at hph'
      cases hph'
    · cases hb : (movePiece s c i).1
      · rfl
      · exact absurd hb hres
  · intro d
    unfold rollDice
    rw [if_pos (by rw [hph]; intro hco; cases hco)]

theorem gameOver_only_finishing (s : GameState) (op : Op) (h : RunInv s)
    (hrun : isRunOp op = true) (w : Color)
    (hmem : Event.gameOverEv w ∈ (applyOp s op).2.2) :
    ∃ c i player piece, op = Op.move c i ∧ w = c ∧
      (movePiece s c i).1 = true ∧
      lookupPlayer s.players c = some player ∧
      player.pieces.get? i.toNat = some piece ∧
      piece.isHome = false ∧
      isInFinalHome { piece with
        position := calculateNewPosition piece s.diceValue } = true ∧
      player.pieces.countP (fun q => q.isHome) = 3 ∧
      (∃ q, lookupPlayer (movePiece s c i).2.1.players c = some q ∧
        q.pieces.countP (fun q2 => q2.isHome) = 4) ∧
      (movePiece s c i).2.1.gameState = Phase.gameOver := by
  obtain ⟨hWF, hlen4, hwait, hcur⟩ := h
  cases op with
  | add c =>
    exfalso
    have hmem' : Event.gameOverEv w ∈ (addPlayer s c).2.2 := hmem
    rcases addPlayer_events s c with he | ⟨cs, he⟩ <;> rw [he] at hmem' <;>
      simp at hmem'
  | remove c => cases hrun
  | roll d =>
    exfalso
    have hmem' : Event.gameOverEv w ∈ (rollDice s (d.val + 1)).2.2 := hmem
    rcases rollDice_shape s (d.val + 1) with ⟨hE, -⟩ | ⟨-, hE⟩ <;>
      rw [hE] at hmem' <;> simp at hmem'
  | reset => cases hrun
  | move c i =>
    have hmem' : Event.gameOverEv w ∈ (movePiece s c i).2.2 := hmem
    by_cases hres : (movePiece s c i).1 = true
    · obtain ⟨player, piece, hcp, hph, hlk, hrange, hget, hvalid, hEq⟩ :=
        movePiece_success_shape s c i hres
      have hev : (movePiece s c i).2.2 = successEvents s c i.toNat piece player := by
        rw [hEq]
        exact executeMove_events s c i.toNat piece player
      rw [hev] at hmem'
      unfold successEvents at hmem'
      simp only [List.mem_append] at hmem'
      have hwc : hasWonAt (movedState s c i.toNat piece player) c = true ∧
          w = c := by
        rcases hmem' with ((hm | hm) | hm) | hm
        · exfalso
          split at hm <;> simp at hm
        · exfalso
          split at hm <;> simp at hm
        · exfalso
          simp at hm
        · split at hm
          case isTrue hwt =>
            simp only [List.mem_singleton, Event.gameOverEv.injEq] at hm
            exact ⟨hwt, hm⟩
          case isFalse hwt =>
            exfalso
            have hcp2 : (movedState s c i.toNat piece player).currentPlayer =
                some c := hcp
            unfold nextTurn at hm
            simp only [hcp2] at hm
            simp at hm
      obtain ⟨hw, hwceq⟩ := hwc
      have hwon_pre : hasWon player = false := by
        obtain ⟨cur, p, hc1, hc2, hc3⟩ := hcur (Or.inr hph)
        rw [hcp] at hc1
        have hcc : cur = c := (Option.some.inj hc1).symm
        rw [hcc, hlk] at hc2
        cases hc2
        exact hc3
      have hq := movedPlayers_lookup_self s c i.toNat piece player hWF hlk
        hget hvalid
      have hwQ : (listModify (updatedMover player i.toNat piece
          (calculateNewPosition piece s.diceValue)).pieces i.toNat
          (safeFlag (calculateNewPosition piece s.diceValue))).countP
          (fun q => q.isHome) = 4 := by
        unfold hasWonAt at hw
        rw [(movedState_fields s c i.toNat piece player).2.2] at hw
        simp only [hq] at hw
        rw [hasWon_eq_countP] at hw
        simpa using hw
      have hcount := listModify_countP_of_inv (updatedMover player i.toNat piece
          (calculateNewPosition piece s.diceValue)).pieces i.toNat
        (safeFlag (calculateNewPosition piece s.diceValue))
        (fun q => q.isHome) (fun a => rfl)
      have hwU := hwQ
      rw [hcount] at hwU
      have hnh : piece.isHome = false := (isValidMove_facts player piece _ _ hvalid).1
      have hphase : (movePiece s c i).2.1.gameState = Phase.gameOver := by
        rw [hEq]
        exact (movePiece_gameOver_phase s c i piece player hph).mpr hw
      have hplayers : (movePiece s c i).2.1.players =
          movedPlayers s c i.toNat piece player := by
        rw [hEq]
        show (executeMove s c i.toNat piece player).1.players = _
        unfold executeMove
        rw [if_pos hw]
        rfl
      by_cases hreached : isInFinalHome { piece with
          position := calculateNewPosition piece s.diceValue } = true
      · have hUp : (updatedMover player i.toNat piece
            (calculateNewPosition piece s.diceValue)).pieces =
            listModify player.pieces i.toNat (fun _ => { piece with
              position := calculateNewPosition piece s.diceValue,
              isHome := true }) := by
          simp [updatedMover, hreached]
        rw [hUp] at hwU
        have hstep := listModify_countP player.pieces i.toNat
          (fun _ => { piece with
            position := calculateNewPosition piece s.diceValue,
            isHome := true }) (fun q => q.isHome) piece hget
        rw [hwU] at hstep
        simp [hnh] at hstep
        have h3 : player.pieces.countP (fun q => q.isHome) = 3 := by omega
        have hexq : ∃ q, lookupPlayer (movePiece s c i).2.1.players c = some q ∧
            q.pieces.countP (fun q2 => q2.isHome) = 4 := by
          rw [hplayers]
          exact ⟨_, hq, hwQ⟩
        exact ⟨c, i, player, piece, rfl, hwceq, hres, hlk, hget, hnh,
          hreached, h3, hexq, hphase⟩
      · exfalso
        have hUp : (updatedMover player i.toNat piece
            (calculateNewPosition piece s.diceValue)).pieces =
            listModify player.pieces i.toNat (fun _ => { piece with
              position := calculateNewPosition piece s.diceValue }) := by
          simp [updatedMover, hreached]
        rw [hUp] at hwU
        have hstep := listModify_countP player.pieces i.toNat
          (fun _ => { piece with
            position := calculateNewPosition piece s.diceValue })
          (fun q => q.isHome) piece hget
        rw [hwU] at hstep
        simp [hnh] at hstep
        have h4 : player.pieces.countP (fun q => q.isHome) = 4 := by omega
        rw [hasWon_eq_countP, h4] at hwon_pre
        simp at hwon_pre
    · exfalso
      have hfail : (movePiece s c i).1 = false := by
        cases hb : (movePiece s c i).1
        · rfl
        · exact absurd hb hres
      obtain ⟨-, hevs, -, -⟩ := movePiece_failure_frame s c i hfail
      rcases hevs with he | he <;> rw [he] at hmem' <;> simp at hmem'

/-- C7: in every run of a game (a sequence of add/roll/move operations from
the fresh game), at most one `GameOver` event is emitted; it is emitted only
by a successful move that finishes the mover's 4th piece (the moved piece was
unfinished, lands in the final home range, and the mover's finished count
rises from 3 to 4 while the phase becomes `GameOver`); and once a `GameOver`
has been emitted, every subsequent move returns failure and every subsequent
roll returns 0. -/
theorem gameOver_run_spec (ops : List Op)
    (hops : ∀ op ∈ ops, isRunOp op = true) :
    countGameOver (runTrace initGame ops).2 ≤ 1 ∧
    (∀ pre op suf, ops = pre ++ op :: suf →
      ∀ w, Event.gameOverEv w ∈ (applyOp (runTrace initGame pre).1 op).2.2 →
        ∃ c i player piece, op = Op.move c i ∧ w = c ∧
          (movePiece (runTrace initGame pre).1 c i).1 = true ∧
          lookupPlayer (runTrace initGame pre).1.players c = some player ∧
          player.pieces.get? i.toNat = some piece ∧
          piece.isHome = false ∧
          isInFinalHome { piece with
            position := calculateNewPosition piece (runTrace initGame pre).1.diceValue } = true ∧
          player.pieces.countP (fun q => q.isHome) = 3 ∧
          (∃ q, lookupPlayer
              (movePiece (runTrace initGame pre).1 c i).2.1.players c = some q ∧
            q.pieces.countP (fun q2 => q2.isHome) = 4) ∧
          (movePiece (runTrace initGame pre).1 c i).2.1.gameState =
            Phase.gameOver) ∧
    (∀ pre op suf, ops = pre ++ op :: suf →
      countGameOver (runTrace initGame pre).2 = 1 →
        (∀ c i, op = Op.move c i →
          (applyOp (runTrace initGame pre).1 op).1 = OpResult.ok false) ∧
        (∀ d, op = Op.roll d →
          (applyOp (runTrace initGame pre).1 op).1 = OpResult.rolled 0)) := by
  refine ⟨?_, ?_, ?_⟩
  · rw [(runTrace_run_inv ops hops).2]
    split <;> omega
  · intro pre op suf hdec w hmem
    have hpre : ∀ o ∈ pre, isRunOp o = true := fun o ho =>
      hops o (by rw [hdec]; exact List.mem_append_left _ ho)
    have hop : isRunOp op = true :=
      hops op (by rw [hdec]; exact List.mem_append_right _ (List.mem_cons_self _ _))
    exact gameOver_only_finishing (runTrace initGame pre).1 op
      (runTrace_run_inv pre hpre).1 hop w hmem
  · intro pre op suf hdec hcount
    have hpre : ∀ o ∈ pre, isRunOp o = true := fun o ho =>
      hops o (by rw [hdec]; exact List.mem_append_left _ ho)
    have hph : (runTrace initGame pre).1.gameState = Phase.gameOver := by
      by_cases hgo : (runTrace initGame pre).1.gameState = Phase.gameOver
      · exact hgo
      · rw [(runTrace_run_inv pre hpre).2, if_neg hgo] at hcount
        cases hcount
    obtain ⟨hdm, hdr⟩ := afterGameOver_dead (runTrace initGame pre).1 hph
    constructor
    · intro c i hopm
      rw [hopm]
      show OpResult.ok (movePiece (runTrace initGame pre).1 c i).1 =
        OpResult.ok false
      rw [hdm c i]
    · intro d hopr
      rw [hopr]
      show OpResult.rolled (rollDice (runTrace initGame pre).1 (d.val + 1)).1 =
        OpResult.rolled 0
      rw [hdr (d.val + 1)]

theorem gameOver_run_spec_witness :
    (∀ op ∈ opsAddFour ++ [Op.roll 5, Op.move Color.red 0], isRunOp op = true) ∧
      countGameOver (runTrace initGame
        (opsAddFour ++ [Op.roll 5, Op.move Color.red 0])).2 ≤ 1 :=
  ⟨by decide,
    (gameOver_run_spec (opsAddFour ++ [Op.roll 5, Op.move Color.red 0])
      (by decide)).1⟩
